import Mathlib

/-!
Verification development for the Noon.com catalog scraper (`src/main.js`).

The development shallowly embeds the scraper's pure data path: the field
normalizers (`cleanText`, `cleanPrice`, the review-count snippets), the
endpoint-tier record extractor (`extractProductFromAPI`), record validation
(`validateProduct`), the detail-page merge (`enrichProductWithDetails`), and
the per-page control loop of `requestHandler` together with its pagination
guard.  Network fetches and HTML selector queries are abstracted as inputs:
a `PageData` value carries what the API tier and the markup tier would have
produced for one catalog page, and a `DetailResolved` value carries the
first truthy value each resolution chain of the detail page would have
produced (`none` standing for a fetch/parse failure, which the code's
`catch` turns into "return the input record").

JavaScript numbers produced by the price/decimal parsers are modeled by
`Dec`, a canonical scaled-decimal value `mant / 10 ^ exp` (JS `parseFloat`
on the digit tokens in question is exact at the spec level); `NaN` and
`null` are separate constructors of `PriceResult`.  JS truthiness of the
record fields is modeled by the `strTruthy`/`qTruthy`/`intTruthy` helpers
(`null`/`undefined`, `""`, `0` and `NaN` are falsy).  The crawl loop is
modeled sequentially (one chain of catalog pages, as produced by a single
start URL); `CrawlState.detailFetches` instruments the number of detail
`gotScraping` calls performed, and `sink` the records pushed to the dataset
buffer.
-/

namespace NoonScraper

/-! ## JS truthiness helpers -/

/-- Truthiness of a JS string-or-nullish value: `null`/`undefined` and `""`
are falsy. -/
def strTruthy : Option String → Bool
  | none => false
  | some s => if s = "" then false else true

/-- Truthiness of a JS number-or-nullish value: `null`/`undefined` and `0`
are falsy. -/
def qTruthy : Option ℚ → Bool
  | none => false
  | some q => if q = 0 then false else true

/-- Truthiness of an integer-or-nullish value. -/
def intTruthy : Option Int → Bool
  | none => false
  | some n => if n = 0 then false else true

/-- JS `a || b` on string-or-nullish values. -/
def strOr (a b : Option String) : Option String :=
  if strTruthy a then a else b

/-- First truthy value of a list of string-or-nullish values (a chain of
`||`), `none` if all are falsy. -/
def firstStr (l : List (Option String)) : Option String :=
  l.foldr (fun a acc => strOr a acc) none

/-! ## Field normalizer: `cleanText` (src/main.js lines 50-53)

`cleanText` stringifies, replaces every run of whitespace by a single
space, and trims; a nullish input yields `""`.  The whitespace class is
modeled by the ASCII part of the regex class `\s` (the replacement
character `' '` is itself in the class, which is all the idempotence
argument needs). -/

/-- ASCII whitespace, the model of the regex class `\s`. -/
def isWsChar (c : Char) : Bool :=
  c = ' ' || c = '\t' || c = '\n' || c = '\r' || c = '\x0B' || c = '\x0C'

/-- One pass of `String.replace(/\s+/g, ' ')`: each maximal whitespace run
becomes a single `' '`.  The boolean argument records whether the previous
character was part of a whitespace run. -/
def collapseWs : Bool → List Char → List Char
  | _, [] => []
  | prevWs, c :: cs =>
    if isWsChar c then
      if prevWs then collapseWs true cs else ' ' :: collapseWs true cs
    else c :: collapseWs false cs

/-- `String.trim`: drop whitespace from both ends. -/
def trimWs (l : List Char) : List Char :=
  ((l.dropWhile isWsChar).reverse.dropWhile isWsChar).reverse

/-- Model of `cleanText` (src/main.js lines 50-53). -/
def cleanText (s : String) : String :=
  String.mk (trimWs (collapseWs false s.data))

/-! ## Decimal values and digit strings -/

/-- ASCII digit, the model of the regex class `\d`. -/
def isDigitChar (c : Char) : Bool :=
  '0' ≤ c && c ≤ '9'

/-- Numeric value of a digit character. -/
def charDigitVal (c : Char) : Nat :=
  c.toNat - 48

/-- Character for a single digit value (callers pass `d < 10`). -/
def digitChar : Nat → Char
  | 0 => '0' | 1 => '1' | 2 => '2' | 3 => '3' | 4 => '4'
  | 5 => '5' | 6 => '6' | 7 => '7' | 8 => '8' | _ => '9'

/-- Value of a most-significant-first digit string. -/
def digitsVal (l : List Char) : Nat :=
  l.foldl (fun a c => a * 10 + charDigitVal c) 0

/-- Least-significant-first digit characters of a positive number; the
first argument is fuel (any bound on the digit count, e.g. the number
itself). -/
def natDigitsAux : Nat → Nat → List Char
  | 0, _ => []
  | fuel + 1, n => if n = 0 then [] else digitChar (n % 10) :: natDigitsAux fuel (n / 10)

/-- Decimal digit characters of a natural number, most significant first. -/
def natToChars (n : Nat) : List Char :=
  if n = 0 then ['0'] else (natDigitsAux n n).reverse

/-- A canonical scaled-decimal value `mant / 10 ^ exp`: the model of the
(nonnegative, decimal) JS numbers produced by the scraper's parsers. -/
structure Dec where
  mant : Nat
  exp : Nat
deriving DecidableEq

/-- Rational value of a `Dec`. -/
def Dec.toQ (d : Dec) : ℚ :=
  (d.mant : ℚ) / 10 ^ d.exp

/-- Canonicalize `m / 10 ^ e` by stripping trailing zero digits into the
exponent (so equal JS numbers have equal representations). -/
def decNorm : Nat → Nat → Dec
  | m, 0 => ⟨m, 0⟩
  | m, e + 1 => if m % 10 = 0 then decNorm (m / 10) e else ⟨m, e + 1⟩

/-- A `Dec` is canonical when its mantissa has no trailing zero to shift
into the exponent. -/
def IsDecNorm (d : Dec) : Prop :=
  d.exp = 0 ∨ d.mant % 10 ≠ 0

/-! ## Field normalizer: `cleanPrice` (src/main.js lines 55-59)

`cleanPrice` returns `null` for a falsy input, otherwise matches
`/[\d,]+(\.\d+)?/`, strips commas from the first match and applies
`parseFloat`.  The leftmost-greedy match of this particular regex is
computed directly: the first maximal run of `[0-9,]`, extended by `.` and
a digit run when present.  `parseFloat` applied to the comma-stripped
token (a string over digits and at most one dot, with at least one digit
after any dot) is `NaN` exactly when the string contains no digit. -/

/-- Character class `[\d,]`. -/
def isNumTokChar (c : Char) : Bool :=
  isDigitChar c || c = ','

/-- The (leftmost greedy) match of `/[\d,]+(\.\d+)?/` starting at the head
of `l`, whose head is assumed to be in `[\d,]`: the maximal `[\d,]` run,
extended by `.` and a maximal digit run when a dot with at least one
digit follows. -/
def matchTok (l : List Char) : List Char :=
  match l.dropWhile isNumTokChar with
  | x :: r =>
    if x = '.' then
      if r.takeWhile isDigitChar = [] then l.takeWhile isNumTokChar
      else l.takeWhile isNumTokChar ++ '.' :: r.takeWhile isDigitChar
    else l.takeWhile isNumTokChar
  | [] => l.takeWhile isNumTokChar

/-- First match of `/[\d,]+(\.\d+)?/` in `l`, if any. -/
def firstPriceTok : List Char → Option (List Char)
  | [] => none
  | c :: cs => if isNumTokChar c then some (matchTok (c :: cs)) else firstPriceTok cs

/-- Model of JS `parseFloat` on the comma-stripped tokens above: scan a
leading digit run, then optionally `.` and a digit run, ignoring anything
after; `none` models `NaN` (no digits scanned at all). -/
def parseFloatD (l : List Char) : Option Dec :=
  match l.dropWhile isDigitChar with
  | x :: r =>
    if x = '.' then
      if l.takeWhile isDigitChar = [] ∧ r.takeWhile isDigitChar = [] then none
      else
        some (decNorm
          (digitsVal (l.takeWhile isDigitChar) * 10 ^ (r.takeWhile isDigitChar).length +
            digitsVal (r.takeWhile isDigitChar))
          (r.takeWhile isDigitChar).length)
    else
      if l.takeWhile isDigitChar = [] then none
      else some (decNorm (digitsVal (l.takeWhile isDigitChar)) 0)
  | [] =>
    if l.takeWhile isDigitChar = [] then none
    else some (decNorm (digitsVal (l.takeWhile isDigitChar)) 0)

/-- Result of `cleanPrice`: JS `null`, JS `NaN`, or a number. -/
inductive PriceResult where
  | null : PriceResult
  | nan : PriceResult
  | num : Dec → PriceResult
deriving DecidableEq

/-- Model of `cleanPrice` (src/main.js lines 55-59). -/
def cleanPrice (s : String) : PriceResult :=
  if s = "" then .null
  else
    match firstPriceTok s.data with
    | none => .null
    | some tok =>
      match parseFloatD (tok.filter (fun c => !(c = ','))) with
      | none => .nan
      | some d => .num d

/-- Independent reading of a decimal digit string (digits, at most one
dot): the value of the digits before the first dot plus the value of the
digits after it scaled by their count, as a rational. -/
def decValueQ (l : List Char) : ℚ :=
  (digitsVal (l.takeWhile (fun c => !(c = '.'))) : ℚ) +
    (digitsVal (l.dropWhile (fun c => !(c = '.'))).tail : ℚ) /
      10 ^ ((l.dropWhile (fun c => !(c = '.'))).tail).length

/-! ## JS number rendering (`String(n)`)

Used by the normalization-idempotence claim: re-parsing the string
rendering of a previously parsed price.  ECMA-262 `Number::toString`
renders a value in positional decimal notation exactly when it is `0` or
its magnitude lies in `[1e-6, 1e21)`, and in exponential notation
otherwise; for a canonical `Dec` the positional rendering is the
mantissa's digits with a dot placed `exp` places from the right. -/

/-- Digit characters of `m`, left-padded with `'0'` to width at least `k`. -/
def padDigits (k m : Nat) : List Char :=
  List.replicate (k - (natToChars m).length) '0' ++ natToChars m

/-- Positional decimal rendering of a canonical `Dec`. -/
def renderPositional (d : Dec) : List Char :=
  if d.exp = 0 then natToChars d.mant
  else natToChars (d.mant / 10 ^ d.exp) ++ '.' :: padDigits d.exp (d.mant % 10 ^ d.exp)

/-- Exponential rendering (`"1e+22"`, `"1.5e+21"`, `"5e-7"`) of a nonzero
canonical `Dec`. -/
def renderExpForm (d : Dec) : List Char :=
  let ds := natToChars d.mant
  let sig := ((ds.reverse.dropWhile (fun c => c = '0')).reverse)
  let mantissa := match sig with
    | [] => ['0']
    | c :: rest => if rest = [] then [c] else c :: '.' :: rest
  let e : Int := (ds.length : Int) - 1 - (d.exp : Int)
  mantissa ++ (if 0 ≤ e then 'e' :: '+' :: natToChars e.toNat else 'e' :: '-' :: natToChars (-e).toNat)

/-- The positional-notation condition of ECMA-262 `Number::toString`,
expressed on a canonical `Dec`: the value is `0` or lies in
`[1e-6, 1e21)`. -/
def InPositionalRange (d : Dec) : Prop :=
  d.mant = 0 ∨ (10 ^ d.exp ≤ d.mant * 10 ^ 6 ∧ d.mant < 10 ^ (d.exp + 21))

instance (d : Dec) : Decidable (InPositionalRange d) := by
  unfold InPositionalRange; infer_instance

/-- Model of JS `String(n)` for the nonnegative decimal values `cleanPrice`
produces. -/
def renderDec (d : Dec) : String :=
  if d.mant = 0 then "0"
  else if InPositionalRange d then String.mk (renderPositional d)
  else String.mk (renderExpForm d)

/-! ## Review-count normalization snippets

The listing-markup extractor (src/main.js lines 350-356 and 366-375) and
the detail-page extractor (lines 641-649) normalize a matched review-count
token with the same snippet:
`str.toUpperCase().includes('K') ? Math.round(parseFloat(str.replace(/K/i, '')) * 1000) : parseInt(str.replace(/,/g, ''))`.
`Math.round(x)` is `⌊x + 1/2⌋`; on a parsed `Dec` value times 1000 that is
the pure-arithmetic `jsRoundMul1000` below. -/

/-- `str.replace(/K/i, '')`: remove the first `K` or `k`. -/
def removeFirstK : List Char → List Char
  | [] => []
  | c :: cs => if c = 'K' || c = 'k' then cs else c :: removeFirstK cs

/-- Model of JS `parseInt` on the comma-stripped tokens in question:
value of the leading digit run, `NaN` (`none`) if there is none. -/
def parseIntTok (l : List Char) : Option Int :=
  let intD := l.takeWhile isDigitChar
  if intD = [] then none else some (digitsVal intD : Int)

/-- `Math.round(toQ d * 1000)` as pure natural arithmetic:
`⌊(2 * mant * 1000 + 10 ^ exp) / (2 * 10 ^ exp)⌋`. -/
def jsRoundMul1000 (d : Dec) : Nat :=
  (2 * d.mant * 1000 + 10 ^ d.exp) / (2 * 10 ^ d.exp)

/-- The review-count normalization snippet as it appears in the listing
extractor `extractProductData` (src/main.js lines 350-356): K-suffixed
tokens are parsed without the `K` and scaled by 1000 with rounding,
otherwise the comma-stripped token is parsed as an integer. -/
def listingReviewCount (tok : List Char) : Option Int :=
  if tok.any (fun c => c = 'K' || c = 'k') then
    match parseFloatD (removeFirstK tok) with
    | none => none
    | some d => some (jsRoundMul1000 d : Int)
  else parseIntTok (tok.filter (fun c => !(c = ',')))

/-- The same snippet as it appears in the detail-page enricher
(src/main.js lines 641-649). -/
def detailReviewCount (tok : List Char) : Option Int :=
  if tok.any (fun c => c = 'K' || c = 'k') then
    match parseFloatD (removeFirstK tok) with
    | none => none
    | some d => some (jsRoundMul1000 d : Int)
  else parseIntTok (tok.filter (fun c => !(c = ',')))

/-! ## Product records -/

/-- A `ProductRecord` as built by the extractors (src/main.js lines
109-123 and 397-411).  Raw price text is normalized through `cleanPrice`,
so the price fields hold a `PriceResult`; the other nullable fields are
`Option`s.  The `scrapedAt` wall-clock timestamp is outside the model. -/
structure Product where
  title : String
  url : Option String
  image : Option String
  brand : Option String
  description : Option String
  currentPrice : PriceResult
  originalPrice : PriceResult
  discount : Option String
  rating : Option ℚ
  reviewsCount : Option Int
  sku : Option String
  currency : String
deriving DecidableEq

/-! ## `toAbs` (src/main.js lines 46-48)

Models `new URL(href, 'https://www.noon.com').href`: the WHATWG parser
rejects a special-scheme URL whose authority (host) is empty — `new URL`
throws and `toAbs` returns null — while other references resolve against
the fixed base.  Percent-encoding and other href normalization performed
by the real parser are not modeled; the development relies on `toAbs`
only through null-vs-non-null and through unambiguous absolute URLs. -/

/-- Whether `pat` is an initial segment of `l`. -/
def listStartsWith : List Char → List Char → Bool
  | [], _ => true
  | _ :: _, [] => false
  | p :: ps, c :: cs => p = c && listStartsWith ps cs

/-- The host segment: characters before the first `/`, `?` or `#`. -/
def hostPart (l : List Char) : List Char :=
  l.takeWhile (fun c => !(c = '/' || c = '?' || c = '#'))

/-- Model of the `toAbs` helper (src/main.js lines 46-48). -/
def toAbs (href : String) : Option String :=
  if listStartsWith "https://".data href.data then
    if hostPart (href.data.drop 8) = [] then none else some href
  else if listStartsWith "http://".data href.data then
    if hostPart (href.data.drop 7) = [] then none else some href
  else if listStartsWith "//".data href.data then
    if hostPart (href.data.drop 2) = [] then none else some ("https:" ++ href)
  else if listStartsWith "/".data href.data then some ("https://www.noon.com" ++ href)
  else some ("https://www.noon.com/" ++ href)

/-! ## Endpoint-tier extraction: `extractProductFromAPI`
(src/main.js lines 98-128) -/

/-- The fields of a raw endpoint-tier product object that
`extractProductFromAPI` reads.  String-valued payload fields are
`Option String` (`none` for absent), numeric rating/count fields keep
their numeric type, and raw price values are modeled by their string
form (JS `cleanPrice` stringifies its argument). -/
structure RawAPIProduct where
  sku : Option String := none
  product_code : Option String := none
  id : Option String := none
  url : Option String := none
  product_url : Option String := none
  name : Option String := none
  title : Option String := none
  product_name : Option String := none
  image_url : Option String := none
  image : Option String := none
  thumbnail : Option String := none
  brand : Option String := none
  brand_name : Option String := none
  description : Option String := none
  overview : Option String := none
  summary : Option String := none
  sale_price : Option String := none
  price : Option String := none
  offer_price : Option String := none
  was_price : Option String := none
  list_price : Option String := none
  original_price : Option String := none
  discount_percentage : Option String := none
  discount : Option String := none
  rating : Option ℚ := none
  average_rating : Option ℚ := none
  reviews_count : Option Int := none
  rating_count : Option Int := none
  currency : Option String := none

/-- `cleanText` applied to a chain of `||` alternatives, then `|| null`:
yields `none` when the cleaned text is empty. -/
def cleanedOrNull (l : List (Option String)) : Option String :=
  let c := cleanText ((firstStr l).getD "")
  if c = "" then none else some c

/-- The record object literal returned by `extractProductFromAPI`
(src/main.js lines 105-123): `sku` and `url` are the `let`-bound chains
of lines 105-107, each field the corresponding `||`-chain. -/
def apiRecord (p : RawAPIProduct) : Product :=
  let sku := strOr p.sku (strOr p.product_code p.id)
  let url := strOr p.url (strOr p.product_url
    (if strTruthy sku then some ("https://www.noon.com/uae-en/p/" ++ sku.getD "") else none))
  { title := cleanText ((firstStr [p.name, p.title, p.product_name]).getD ""),
    url := if strTruthy url then toAbs (url.getD "") else none,
    image := firstStr [p.image_url, p.image, p.thumbnail],
    brand := cleanedOrNull [p.brand, p.brand_name],
    description := cleanedOrNull [p.description, p.overview, p.summary],
    currentPrice := cleanPrice ((firstStr [p.sale_price, p.price, p.offer_price]).getD ""),
    originalPrice := cleanPrice ((firstStr [p.was_price, p.list_price, p.original_price]).getD ""),
    discount := firstStr [p.discount_percentage, p.discount],
    rating := if qTruthy p.rating then p.rating
      else if qTruthy p.average_rating then p.average_rating else none,
    reviewsCount := if intTruthy p.reviews_count then p.reviews_count
      else if intTruthy p.rating_count then p.rating_count else none,
    sku := sku,
    currency := if strTruthy p.currency then p.currency.getD "" else "AED" }

/-- Model of `extractProductFromAPI` (src/main.js lines 98-128).  The
input is `Option`-wrapped to model the `!product` guard; the whole body's
`try`/`catch` never fires for this pure field extraction. -/
def extractProductFromAPI (rp : Option RawAPIProduct) : Option Product :=
  match rp with
  | none => none
  | some p => if !strTruthy p.sku then none else some (apiRecord p)

/-! ## Validation and detail enrichment -/

/-- Model of `validateProduct` (src/main.js lines 421-437): required
truthy `title` and `url`, and title length within `[5, 500]`. -/
def validateProduct (p : Product) : Bool :=
  if p.title = "" || !strTruthy p.url then false
  else if p.title.length < 5 || 500 < p.title.length then false
  else true

/-- The `needsDetail` predicate computed identically at src/main.js lines
446 and 862: at least one of description/brand/rating/reviewsCount is
falsy. -/
def needsDetail (p : Product) : Bool :=
  !strTruthy p.description || !strTruthy p.brand || !qTruthy p.rating || !intTruthy p.reviewsCount

/-- What the detail page's per-field resolution chains produced: for each
of the four targeted fields, the first truthy value of its chain
(JSON-LD, script payloads, markup selectors, full-text patterns), `none`
when every stage was falsy. -/
structure DetailResolved where
  description : Option String := none
  brand : Option String := none
  rating : Option ℚ := none
  reviewsCount : Option Int := none

/-- The field-merge performed by `enrichProductWithDetails` after a
successful detail fetch (src/main.js lines 583-676): for description and
brand, `cleanText(resolved chain) || product.field || null`; for rating
and reviews, `resolved || product.field` followed by `?? product.field ??
null`, which collapses to "resolved when truthy, else the input value". -/
def mergeDetails (d : DetailResolved) (p : Product) : Product :=
  let rDesc := cleanText (d.description.getD "")
  let descr := if rDesc = "" then p.description else some rDesc
  let rBrand := cleanText (d.brand.getD "")
  let brand := if rBrand = "" then p.brand else some rBrand
  { p with
    description := if strTruthy descr then descr
      else if strTruthy p.description then p.description else none,
    brand := if strTruthy brand then brand
      else if strTruthy p.brand then p.brand else none,
    rating := if qTruthy d.rating then d.rating else p.rating,
    reviewsCount := if intTruthy d.reviewsCount then d.reviewsCount else p.reviewsCount }

/-- Model of `enrichProductWithDetails` (src/main.js lines 443-681).
`fetched = none` models the detail fetch or parse throwing (the whole
body after the guards is a `try` whose `catch` returns the input
record). -/
def enrichProductWithDetails (fetched : Option DetailResolved) (p : Product) : Product :=
  if !strTruthy p.url then p
  else if !needsDetail p then p
  else
    match fetched with
    | none => p
    | some d => mergeDetails d p

/-! ## The per-page control loop (`requestHandler`, src/main.js lines
729-944) and pagination -/

/-- Run configuration after input normalization (src/main.js lines
38-42): `MAX_PRODUCTS`, `MAX_PAGES`, `fetchDetails`, and the per-run
detail cap `DETAIL_LIMIT`. -/
structure Config where
  maxProducts : Nat
  maxPages : Nat
  fetchDetails : Bool
  detailLimit : Nat

/-- Model of `DETAIL_LIMIT` (src/main.js lines 40-42): a finite
`detailSampleLimit` is clamped into `[0, MAX_PRODUCTS]`, otherwise the
cap defaults to `MAX_PRODUCTS`. -/
def computeDetailLimit (detailSampleLimit : Option Int) (maxProducts : Nat) : Nat :=
  match detailSampleLimit with
  | some v => (min v (maxProducts : Int)).toNat
  | none => maxProducts

/-- The run-level mutable state (`saved`, `pageCount`, `errors`, the
dataset buffer) plus the trace counter `detailFetches` instrumenting how
many detail-page fetches were performed. -/
structure CrawlState where
  saved : Nat
  pageCount : Nat
  sink : List Product
  detailFetches : Nat
  errors : Nat
deriving DecidableEq

/-- What one catalog-page fetch yields to `requestHandler`: the API
tier's outcome (`success` flag, extracted records, pagination hint), the
markup tier's product elements (each `Option Product`, the result of
`extractProductData` on that element), whether the body carries
block/captcha markers, and what each record's detail page would resolve
(`none` = the detail fetch would fail). -/
structure PageData where
  apiSuccess : Bool
  apiProducts : List Product
  apiHasNext : Bool
  htmlElems : List (Option Product)
  bodyBlocked : Bool
  detailOf : Product → Option DetailResolved

/-- Result of processing one catalog page: the new state, the records
emitted to the sink, the inputs for which a detail fetch was performed,
and whether a next-page request was enqueued. -/
structure StepResult where
  state : CrawlState
  emitted : List Product
  fetchLog : List Product
  enqueued : Bool

/-- JS `l.slice(0, k)` for possibly negative `k` (a negative end counts
from the end of the array). -/
def jsSliceEnd (l : List Product) (k : Int) : List Product :=
  l.take (if k < 0 then l.length - (-k).toNat else k.toNat)

/-- The `productsToSave` list assembled by STEP 1/2 of `requestHandler`
(src/main.js lines 737-850): the API tier's records when it succeeded
with at least one record; otherwise the markup tier's per-element
extractions, validated, and only while `saved < MAX_PRODUCTS` (the
`.each` early-exit at line 841). -/
def pageProductsToSave (cfg : Config) (pd : PageData) (saved : Nat) : List Product :=
  if pd.apiSuccess && decide (0 < pd.apiProducts.length) then pd.apiProducts
  else if decide (cfg.maxProducts ≤ saved) then []
  else (pd.htmlElems.filterMap id).filter validateProduct

/-- The `validProducts` list of STEP 3 (src/main.js line 856):
`productsToSave.filter(validateProduct).slice(0, MAX_PRODUCTS - saved)`. -/
def pageValidProducts (cfg : Config) (pd : PageData) (saved : Nat) : List Product :=
  jsSliceEnd ((pageProductsToSave cfg pd saved).filter validateProduct)
    ((cfg.maxProducts : Int) - (saved : Int))

/-- The enrichment loop of STEP 3 (src/main.js lines 859-870): each
product is detail-fetched when `fetchDetails` is on, the page's
`detailFetched` counter is below `DETAIL_LIMIT`, and the record needs
detail; otherwise it passes through unchanged.  Returns
`(input, emitted record, whether a fetch was performed)` triples. -/
def enrichLoop (cfg : Config) (detailOf : Product → Option DetailResolved) :
    List Product → Nat → List (Product × Product × Bool)
  | [], _ => []
  | p :: ps, fetched =>
    if cfg.fetchDetails && decide (fetched < cfg.detailLimit) && needsDetail p then
      (p, enrichProductWithDetails (detailOf p) p, true) :: enrichLoop cfg detailOf ps (fetched + 1)
    else (p, p, false) :: enrichLoop cfg detailOf ps fetched

/-- Model of one `LIST` invocation of `requestHandler` (src/main.js lines
733-943): increment `pageCount`; early-return (recording a block error)
when the API tier is not taken and no product elements were found;
otherwise emit the enriched valid slice, update `saved`, and enqueue a
next page exactly under the STEP 4 guard
`saved < MAX_PRODUCTS && pageCount < MAX_PAGES`, through the API branch
when `apiResult.success && hasNext` and otherwise through the HTML branch
when `productsToSave` is non-empty (both of whose sub-branches enqueue). -/
def processPage (cfg : Config) (pd : PageData) (st : CrawlState) : StepResult :=
  let pc := st.pageCount + 1
  if !(pd.apiSuccess && decide (0 < pd.apiProducts.length)) && decide (pd.htmlElems.length = 0) then
    { state :=
        { st with
          pageCount := pc,
          errors := st.errors + (if pd.bodyBlocked then 1 else 0) },
      emitted := [], fetchLog := [], enqueued := false }
  else
    let productsToSave := pageProductsToSave cfg pd st.saved
    let triples := enrichLoop cfg pd.detailOf (pageValidProducts cfg pd st.saved) 0
    let emitted := triples.map (fun t => t.2.1)
    let fetchLog := (triples.filter (fun t => t.2.2)).map (fun t => t.1)
    let saved' := st.saved + emitted.length
    let enq :=
      if decide (saved' < cfg.maxProducts) && decide (pc < cfg.maxPages) then
        if pd.apiSuccess && pd.apiHasNext then true
        else decide (0 < productsToSave.length)
      else false
    { state :=
        { saved := saved',
          pageCount := pc,
          sink := st.sink ++ emitted,
          detailFetches := st.detailFetches + fetchLog.length,
          errors := st.errors },
      emitted := emitted, fetchLog := fetchLog, enqueued := enq }

/-- The initial run state. -/
def initState : CrawlState :=
  { saved := 0, pageCount := 0, sink := [], detailFetches := 0, errors := 0 }

/-- The sequential crawl chain from a single start URL: process the
current page and continue while a next-page request was enqueued.
`stream n` is what fetching the chain's page after `n` processed pages
yields; the fuel argument merely makes the recursion structural — the
pagination guard itself stops the chain. -/
def runLoop (cfg : Config) (stream : Nat → PageData) : Nat → CrawlState → CrawlState
  | 0, st => st
  | fuel + 1, st =>
    if (processPage cfg (stream st.pageCount) st).enqueued then
      runLoop cfg stream fuel (processPage cfg (stream st.pageCount) st).state
    else (processPage cfg (stream st.pageCount) st).state

/-! ## Proof-auxiliary definitions -/

/-- Adjacency relation for whitespace runs: two neighbouring characters
are never both whitespace. -/
def WsR (a b : Char) : Prop := isWsChar a = false ∨ isWsChar b = false

/-- The head of the list, when present, is not whitespace. -/
def HeadOk (l : List Char) : Prop := ∀ c, l.head? = some c → isWsChar c = false

/-- Value of a least-significant-first digit string. -/
def valLSB (l : List Char) : Nat := l.foldr (fun c acc => charDigitVal c + 10 * acc) 0

/-! ## Concrete sample inputs for the claim instances -/

/-- A valid, fully populated product record (passes `validateProduct`,
does not need detail enrichment). -/
def sampleProduct (t : String) : Product :=
  { title := t, url := some ("https://www.noon.com/uae-en/p/" ++ t),
    image := none, brand := some "BrandX", description := some "Something",
    currentPrice := .null, originalPrice := .null, discount := none,
    rating := some 4, reviewsCount := some 12, sku := some t, currency := "AED" }

/-- A valid product record missing its description and rating (needs
detail enrichment). -/
def needyProduct (t : String) : Product :=
  { sampleProduct t with description := none, rating := none }

def cfgC1 : Config := { maxProducts := 1, maxPages := 10, fetchDetails := false, detailLimit := 0 }

def pdC1 : PageData :=
  { apiSuccess := true, apiProducts := [sampleProduct "Item D1", sampleProduct "Item D2"],
    apiHasNext := false, htmlElems := [], bodyBlocked := false, detailOf := fun _ => none }

def cfgC2 : Config := { maxProducts := 5, maxPages := 10, fetchDetails := false, detailLimit := 0 }

def pdC2 : PageData :=
  { apiSuccess := true,
    apiProducts := [sampleProduct "Item A1", sampleProduct "Item A2", sampleProduct "Item A3",
      sampleProduct "Item A4", sampleProduct "Item A5", sampleProduct "Item A6",
      sampleProduct "Item A7", sampleProduct "Item A8"],
    apiHasNext := true, htmlElems := [], bodyBlocked := false, detailOf := fun _ => none }

def cfgC3 : Config := { maxProducts := 100, maxPages := 3, fetchDetails := false, detailLimit := 0 }

def pdC3 : PageData :=
  { apiSuccess := true, apiProducts := [sampleProduct "Item B1"], apiHasNext := true,
    htmlElems := [], bodyBlocked := false, detailOf := fun _ => none }

def prodC4 : Product :=
  { title := "Classic leather wallet", url := some "https://www.noon.com/uae-en/p/W1",
    image := none, brand := some "BrandX", description := some "Original description",
    currentPrice := .null, originalPrice := .null, discount := none,
    rating := none, reviewsCount := some 10, sku := some "W1", currency := "AED" }

def detC4 : DetailResolved :=
  { description := some "Fresh page description", brand := none,
    rating := some 4, reviewsCount := none }

def cfgC6 : Config := { maxProducts := 10, maxPages := 2, fetchDetails := true, detailLimit := 1 }

def pdC6 : PageData :=
  { apiSuccess := true, apiProducts := [needyProduct "Item C1"], apiHasNext := true,
    htmlElems := [], bodyBlocked := false, detailOf := fun _ => none }

/-- A raw endpoint-tier payload carrying a truthy sku and a malformed
(but truthy) url: `new URL("https://", base)` throws, so `toAbs` yields
null. -/
def rawC10 : RawAPIProduct := { sku := some "Z9XK12", url := some "https://" }

/-! ## Facts about enrichment and the page step -/

theorem bool_not_true {b : Bool} (h : (!b) = true) : b = false := by
  cases b
  · rfl
  · cases h

theorem enrichProductWithDetails_title (f : Option DetailResolved) (p : Product) :
    (enrichProductWithDetails f p).title = p.title := by
  unfold enrichProductWithDetails
  split
  · rfl
  split
  · rfl
  cases f with
  | none => rfl
  | some d => rfl

theorem enrichProductWithDetails_url (f : Option DetailResolved) (p : Product) :
    (enrichProductWithDetails f p).url = p.url := by
  unfold enrichProductWithDetails
  split
  · rfl
  split
  · rfl
  cases f with
  | none => rfl
  | some d => rfl

theorem enrichProductWithDetails_none (p : Product) :
    enrichProductWithDetails none p = p := by
  unfold enrichProductWithDetails
  split
  · rfl
  split
  · rfl
  rfl

theorem enrichLoop_map_fst (cfg : Config) (d : Product → Option DetailResolved)
    (l : List Product) : ∀ n, (enrichLoop cfg d l n).map (fun t => t.1) = l := by
  induction l with
  | nil => intro n; rfl
  | cons p ps ih =>
    intro n
    unfold enrichLoop
    split <;> simp [ih]

theorem enrichLoop_length (cfg : Config) (d : Product → Option DetailResolved)
    (l : List Product) (n : Nat) : (enrichLoop cfg d l n).length = l.length := by
  have h := congrArg List.length (enrichLoop_map_fst cfg d l n)
  simpa using h

theorem enrichLoop_mem (cfg : Config) (d : Product → Option DetailResolved)
    (l : List Product) : ∀ n t, t ∈ enrichLoop cfg d l n →
      t.1 ∈ l ∧
      (t.2.2 = true → needsDetail t.1 = true ∧ t.2.1 = enrichProductWithDetails (d t.1) t.1) ∧
      (t.2.2 = false → t.2.1 = t.1) := by
  induction l with
  | nil => intro n t ht; cases ht
  | cons p ps ih =>
    intro n t ht
    unfold enrichLoop at ht
    split at ht
    case isTrue hc =>
      rcases List.mem_cons.mp ht with h1 | h1
      · subst h1
        rw [Bool.and_eq_true, Bool.and_eq_true] at hc
        exact ⟨List.mem_cons_self _ _, ⟨fun _ => ⟨hc.2, rfl⟩, fun h => by simp at h⟩⟩
      · obtain ⟨ha, hb, hcc⟩ := ih (n + 1) t h1
        exact ⟨List.mem_cons_of_mem _ ha, hb, hcc⟩
    case isFalse hc =>
      rcases List.mem_cons.mp ht with h1 | h1
      · subst h1
        exact ⟨List.mem_cons_self _ _, ⟨fun h => by simp at h, fun _ => rfl⟩⟩
      · obtain ⟨ha, hb, hcc⟩ := ih n t h1
        exact ⟨List.mem_cons_of_mem _ ha, hb, hcc⟩

theorem enrichLoop_count (cfg : Config) (d : Product → Option DetailResolved)
    (l : List Product) : ∀ n,
      n + ((enrichLoop cfg d l n).filter (fun t => t.2.2)).length ≤ max n cfg.detailLimit := by
  induction l with
  | nil => intro n; simp [enrichLoop, Nat.le_max_left]
  | cons p ps ih =>
    intro n
    unfold enrichLoop
    split
    case isTrue hc =>
      rw [Bool.and_eq_true, Bool.and_eq_true] at hc
      have hn : n < cfg.detailLimit := of_decide_eq_true hc.1.2
      have h1 := ih (n + 1)
      simp only [List.filter_cons]
      simp only [show ((p, enrichProductWithDetails (d p) p, true) :
        Product × Product × Bool).2.2 = true from rfl, if_true, List.length_cons]
      omega
    case isFalse hc =>
      have h1 := ih n
      simp only [List.filter_cons]
      simp only [show ((p, p, false) : Product × Product × Bool).2.2 = false from rfl,
        Bool.false_eq_true, if_false]
      exact h1

theorem enrichLoop_forall₂ (cfg : Config) (d : Product → Option DetailResolved)
    (l : List Product) : ∀ n,
      List.Forall₂
        (fun v e => e = v ∨ (needsDetail v = true ∧ e = enrichProductWithDetails (d v) v))
        l ((enrichLoop cfg d l n).map (fun t => t.2.1)) := by
  induction l with
  | nil => intro n; exact List.Forall₂.nil
  | cons p ps ih =>
    intro n
    unfold enrichLoop
    split
    case isTrue hc =>
      rw [Bool.and_eq_true, Bool.and_eq_true] at hc
      exact List.Forall₂.cons (Or.inr ⟨hc.2, rfl⟩) (ih (n + 1))
    case isFalse hc =>
      exact List.Forall₂.cons (Or.inl rfl) (ih n)

theorem validateProduct_iff (p : Product) :
    validateProduct p = true ↔
      p.title ≠ "" ∧ 5 ≤ p.title.length ∧ p.title.length ≤ 500 ∧ strTruthy p.url = true := by
  unfold validateProduct
  split_ifs with h1 h2
  · simp only [false_iff]
    rintro ⟨ha, -, -, hd⟩
    rw [Bool.or_eq_true] at h1
    rcases h1 with h | h
    · exact ha (of_decide_eq_true h)
    · rw [bool_not_true h] at hd
      cases hd
  · simp only [false_iff]
    rintro ⟨-, hb, hc, -⟩
    rw [Bool.or_eq_true] at h2
    rcases h2 with h | h <;> · have := of_decide_eq_true h; omega
  · simp only [true_iff]
    simp only [Bool.or_eq_true, decide_eq_true_eq, not_or, Bool.not_eq_true] at h1 h2
    refine ⟨h1.1, by omega, by omega, ?_⟩
    have hn := h1.2
    cases hb : strTruthy p.url
    · rw [hb] at hn; cases hn
    · rfl

theorem pageProductsToSave_early (cfg : Config) (pd : PageData) (s : Nat)
    (hapi : (pd.apiSuccess && decide (0 < pd.apiProducts.length)) = false)
    (hhtml : pd.htmlElems.length = 0) :
    pageProductsToSave cfg pd s = [] := by
  unfold pageProductsToSave
  rw [hapi, List.length_eq_zero.mp hhtml]
  simp

theorem pageValidProducts_length (cfg : Config) (pd : PageData) (s : Nat)
    (h : s ≤ cfg.maxProducts) :
    (pageValidProducts cfg pd s).length =
      min ((pageProductsToSave cfg pd s).filter validateProduct).length (cfg.maxProducts - s) := by
  unfold pageValidProducts jsSliceEnd
  rw [if_neg (by omega)]
  have h2 : ((cfg.maxProducts : Int) - (s : Int)).toNat = cfg.maxProducts - s := by omega
  rw [h2, List.length_take, Nat.min_comm]

theorem processPage_pageCount (cfg : Config) (pd : PageData) (st : CrawlState) :
    (processPage cfg pd st).state.pageCount = st.pageCount + 1 := by
  unfold processPage
  split <;> rfl

theorem processPage_emitted (cfg : Config) (pd : PageData) (st : CrawlState) :
    (processPage cfg pd st).emitted =
      (enrichLoop cfg pd.detailOf (pageValidProducts cfg pd st.saved) 0).map
        (fun t => t.2.1) := by
  unfold processPage
  split
  case isTrue h =>
    rw [Bool.and_eq_true] at h
    have hapi : (pd.apiSuccess && decide (0 < pd.apiProducts.length)) = false :=
      bool_not_true h.1
    have hhtml : pd.htmlElems.length = 0 := of_decide_eq_true h.2
    simp [pageValidProducts, jsSliceEnd,
      pageProductsToSave_early cfg pd st.saved hapi hhtml, enrichLoop]
  case isFalse h => rfl

theorem processPage_fetchLog (cfg : Config) (pd : PageData) (st : CrawlState) :
    (processPage cfg pd st).fetchLog =
      ((enrichLoop cfg pd.detailOf (pageValidProducts cfg pd st.saved) 0).filter
        (fun t => t.2.2)).map (fun t => t.1) := by
  unfold processPage
  split
  case isTrue h =>
    rw [Bool.and_eq_true] at h
    have hapi : (pd.apiSuccess && decide (0 < pd.apiProducts.length)) = false :=
      bool_not_true h.1
    have hhtml : pd.htmlElems.length = 0 := of_decide_eq_true h.2
    simp [pageValidProducts, jsSliceEnd,
      pageProductsToSave_early cfg pd st.saved hapi hhtml, enrichLoop]
  case isFalse h => rfl

theorem processPage_saved (cfg : Config) (pd : PageData) (st : CrawlState) :
    (processPage cfg pd st).state.saved = st.saved + (processPage cfg pd st).emitted.length := by
  unfold processPage
  split
  · simp
  · rfl

theorem processPage_sink (cfg : Config) (pd : PageData) (st : CrawlState) :
    (processPage cfg pd st).state.sink = st.sink ++ (processPage cfg pd st).emitted := by
  unfold processPage
  split
  · simp
  · rfl

theorem processPage_detailFetches (cfg : Config) (pd : PageData) (st : CrawlState) :
    (processPage cfg pd st).state.detailFetches =
      st.detailFetches + (processPage cfg pd st).fetchLog.length := by
  unfold processPage
  split
  · simp
  · rfl

theorem processPage_emitted_length (cfg : Config) (pd : PageData) (st : CrawlState)
    (h : st.saved ≤ cfg.maxProducts) :
    (processPage cfg pd st).emitted.length =
      min ((pageProductsToSave cfg pd st.saved).filter validateProduct).length
        (cfg.maxProducts - st.saved) := by
  rw [processPage_emitted, List.length_map, enrichLoop_length,
    pageValidProducts_length cfg pd st.saved h]

theorem processPage_saved_le (cfg : Config) (pd : PageData) (st : CrawlState)
    (h : st.saved ≤ cfg.maxProducts) :
    (processPage cfg pd st).state.saved ≤ cfg.maxProducts := by
  rw [processPage_saved, processPage_emitted_length cfg pd st h]
  omega

theorem processPage_enqueued_imp (cfg : Config) (pd : PageData) (st : CrawlState)
    (h : (processPage cfg pd st).enqueued = true) :
    (processPage cfg pd st).state.saved < cfg.maxProducts ∧
      (processPage cfg pd st).state.pageCount < cfg.maxPages := by
  revert h
  unfold processPage
  split
  · intro h; cases h
  intro h
  simp only at h ⊢
  split at h
  case isTrue hc =>
    rw [Bool.and_eq_true] at hc
    exact ⟨of_decide_eq_true hc.1, of_decide_eq_true hc.2⟩
  case isFalse hc => cases h

/-! ## Run-level lemmas -/

theorem runLoop_saved_le (cfg : Config) (stream : Nat → PageData) :
    ∀ (fuel : Nat) (st : CrawlState), st.saved ≤ cfg.maxProducts →
      (runLoop cfg stream fuel st).saved ≤ cfg.maxProducts := by
  intro fuel
  induction fuel with
  | zero => intro st h; exact h
  | succ f ih =>
    intro st h
    unfold runLoop
    have hstep := processPage_saved_le cfg (stream st.pageCount) st h
    split
    · exact ih _ hstep
    · exact hstep

theorem runLoop_pageCount_le (cfg : Config) (stream : Nat → PageData) :
    ∀ (fuel : Nat) (st : CrawlState),
      (runLoop cfg stream (fuel + 1) st).pageCount ≤ max (st.pageCount + 1) cfg.maxPages := by
  intro fuel
  induction fuel with
  | zero =>
    intro st
    unfold runLoop
    split
    · unfold runLoop
      rw [processPage_pageCount]
      exact Nat.le_max_left _ _
    · rw [processPage_pageCount]
      exact Nat.le_max_left _ _
  | succ f ih =>
    intro st
    unfold runLoop
    split
    case isTrue henq =>
      have hb := processPage_enqueued_imp cfg (stream st.pageCount) st henq
      have h1 := ih (processPage cfg (stream st.pageCount) st).state
      have h2 : (processPage cfg (stream st.pageCount) st).state.pageCount + 1 ≤ cfg.maxPages :=
        hb.2
      have h3 : max ((processPage cfg (stream st.pageCount) st).state.pageCount + 1)
          cfg.maxPages = cfg.maxPages := Nat.max_eq_right h2
      rw [h3] at h1
      exact le_trans h1 (Nat.le_max_right _ _)
    case isFalse henq =>
      rw [processPage_pageCount]
      exact Nat.le_max_left _ _

theorem runLoop_fuel_stable (cfg : Config) (stream : Nat → PageData) :
    ∀ (fuel extra : Nat) (st : CrawlState),
      cfg.maxPages - st.pageCount ≤ fuel → 0 < fuel →
      runLoop cfg stream (fuel + extra) st = runLoop cfg stream fuel st := by
  intro fuel
  induction fuel with
  | zero => intro extra st _ h0; cases h0
  | succ f ih =>
    intro extra st hb _
    have hshape : f + 1 + extra = (f + extra) + 1 := by omega
    rw [hshape]
    unfold runLoop
    split
    case isTrue henq =>
      have himp := processPage_enqueued_imp cfg (stream st.pageCount) st henq
      have hpc := processPage_pageCount cfg (stream st.pageCount) st
      have hb1 : cfg.maxPages - (processPage cfg (stream st.pageCount) st).state.pageCount ≤ f := by
        omega
      have hf : 0 < f := by omega
      exact ih extra _ hb1 hf
    case isFalse henq => rfl

theorem pageValidProducts_mem (cfg : Config) (pd : PageData) (s : Nat) (q : Product)
    (hq : q ∈ pageValidProducts cfg pd s) : validateProduct q = true := by
  unfold pageValidProducts jsSliceEnd at hq
  have h1 := List.mem_of_mem_take hq
  exact (List.mem_filter.mp h1).2

theorem pageValidProducts_full (cfg : Config) (pd : PageData) (s : Nat)
    (h : s ≤ cfg.maxProducts)
    (hlen : ((pageProductsToSave cfg pd s).filter validateProduct).length ≤ cfg.maxProducts - s) :
    pageValidProducts cfg pd s = (pageProductsToSave cfg pd s).filter validateProduct := by
  unfold pageValidProducts jsSliceEnd
  rw [if_neg (by omega)]
  have h2 : ((cfg.maxProducts : Int) - (s : Int)).toNat = cfg.maxProducts - s := by omega
  rw [h2]
  exact List.take_of_length_le hlen

/-! ## Claim theorems: the crawl loop (C1, C2, C3, C5, C6) -/

/-- C1 counterexample: with `maxProducts = 1`, the endpoint tier produces
two perfectly valid candidates but only the first is emitted; the second
has a non-empty in-range title and a non-empty url yet is never emitted
(and the run stops), refuting the claimed "if and only if". -/
theorem c1_counterexample :
    validateProduct (sampleProduct "Item D2") = true ∧
    sampleProduct "Item D2" ∈ pdC1.apiProducts ∧
    (processPage cfgC1 pdC1 initState).emitted = [sampleProduct "Item D1"] ∧
    sampleProduct "Item D2" ∉ (processPage cfgC1 pdC1 initState).emitted ∧
    (processPage cfgC1 pdC1 initState).enqueued = false := by
  decide

/-- C1 (amended): every record emitted by a page step has a non-empty
title of length 5–500 and a non-empty (truthy) url; a candidate failing
validation is never emitted; and conversely every valid candidate of the
winning tier is emitted (as its possibly-enriched record, with the same
title and url) provided the page's valid candidates fit in the remaining
`maxProducts - saved` budget — without that proviso the excess valid
candidates are truncated. -/
theorem c1_theorem (cfg : Config) (pd : PageData) (st : CrawlState)
    (h : st.saved ≤ cfg.maxProducts) :
    (∀ p ∈ (processPage cfg pd st).emitted,
      p.title ≠ "" ∧ 5 ≤ p.title.length ∧ p.title.length ≤ 500 ∧ strTruthy p.url = true) ∧
    (∀ q, validateProduct q = false → q ∉ (processPage cfg pd st).emitted) ∧
    (∀ q ∈ pageProductsToSave cfg pd st.saved, validateProduct q = true →
      ((pageProductsToSave cfg pd st.saved).filter validateProduct).length ≤
        cfg.maxProducts - st.saved →
      ∃ r ∈ (processPage cfg pd st).emitted, r.title = q.title ∧ r.url = q.url) := by
  have hmem : ∀ p ∈ (processPage cfg pd st).emitted,
      ∃ v ∈ pageValidProducts cfg pd st.saved, p.title = v.title ∧ p.url = v.url := by
    intro p hp
    rw [processPage_emitted] at hp
    obtain ⟨t, ht, rfl⟩ := List.mem_map.mp hp
    obtain ⟨hv, hfetch, hskip⟩ := enrichLoop_mem cfg pd.detailOf _ 0 t ht
    refine ⟨t.1, hv, ?_⟩
    cases hb : t.2.2
    · rw [hskip hb]
      exact ⟨rfl, rfl⟩
    · rw [(hfetch hb).2]
      exact ⟨enrichProductWithDetails_title _ _, enrichProductWithDetails_url _ _⟩
  refine ⟨?_, ?_, ?_⟩
  · intro p hp
    obtain ⟨v, hv, ht, hu⟩ := hmem p hp
    have hval := (validateProduct_iff v).mp (pageValidProducts_mem cfg pd st.saved v hv)
    rw [ht, hu]
    exact hval
  · intro q hq hmemq
    obtain ⟨v, hv, ht, hu⟩ := hmem q hmemq
    have hval := (validateProduct_iff v).mp (pageValidProducts_mem cfg pd st.saved v hv)
    have : validateProduct q = true := by
      rw [validateProduct_iff, ht, hu]
      exact hval
    rw [this] at hq
    cases hq
  · intro q hq hvq hlen
    have hfull := pageValidProducts_full cfg pd st.saved h hlen
    have hq2 : q ∈ pageValidProducts cfg pd st.saved := by
      rw [hfull]
      exact List.mem_filter.mpr ⟨hq, hvq⟩
    have hq3 : q ∈ (enrichLoop cfg pd.detailOf (pageValidProducts cfg pd st.saved) 0).map
        (fun t => t.1) := by
      rw [enrichLoop_map_fst]
      exact hq2
    obtain ⟨t, ht, hteq⟩ := List.mem_map.mp hq3
    refine ⟨t.2.1, ?_, ?_⟩
    · rw [processPage_emitted]
      exact List.mem_map.mpr ⟨t, ht, rfl⟩
    · obtain ⟨-, hfetch, hskip⟩ := enrichLoop_mem cfg pd.detailOf _ 0 t ht
      cases hb : t.2.2
      · rw [hskip hb, hteq]
        exact ⟨rfl, rfl⟩
      · rw [(hfetch hb).2, hteq]
        exact ⟨enrichProductWithDetails_title _ _, enrichProductWithDetails_url _ _⟩

theorem c1_witness :
    initState.saved ≤ cfgC1.maxProducts ∧
    ((∀ p ∈ (processPage cfgC1 pdC1 initState).emitted,
      p.title ≠ "" ∧ 5 ≤ p.title.length ∧ p.title.length ≤ 500 ∧ strTruthy p.url = true) ∧
    (∀ q, validateProduct q = false → q ∉ (processPage cfgC1 pdC1 initState).emitted) ∧
    (∀ q ∈ pageProductsToSave cfgC1 pdC1 initState.saved, validateProduct q = true →
      ((pageProductsToSave cfgC1 pdC1 initState.saved).filter validateProduct).length ≤
        cfgC1.maxProducts - initState.saved →
      ∃ r ∈ (processPage cfgC1 pdC1 initState).emitted, r.title = q.title ∧ r.url = q.url)) :=
  ⟨by decide, c1_theorem cfgC1 pdC1 initState (by decide)⟩

/-- C2: at every point of a (sequential) run the saved counter never
exceeds `maxProducts`: one page step preserves `saved ≤ maxProducts`,
increments `saved` by exactly the number of emitted records, emits
exactly `min (valid candidates) (remaining budget)` records (so a page
yielding more valid records than the remaining budget is truncated to
exactly the budget), enqueues no next page once the ceiling is reached,
and every fuel-indexed point of the run from the initial state respects
the ceiling. -/
theorem c2_theorem (cfg : Config) (stream : Nat → PageData) (pd : PageData) (st : CrawlState)
    (h : st.saved ≤ cfg.maxProducts) :
    (processPage cfg pd st).state.saved ≤ cfg.maxProducts ∧
    (processPage cfg pd st).state.saved = st.saved + (processPage cfg pd st).emitted.length ∧
    (processPage cfg pd st).emitted.length =
      min ((pageProductsToSave cfg pd st.saved).filter validateProduct).length
        (cfg.maxProducts - st.saved) ∧
    (cfg.maxProducts ≤ (processPage cfg pd st).state.saved →
      (processPage cfg pd st).enqueued = false) ∧
    (∀ fuel, (runLoop cfg stream fuel initState).saved ≤ cfg.maxProducts) := by
  refine ⟨processPage_saved_le cfg pd st h, processPage_saved cfg pd st,
    processPage_emitted_length cfg pd st h, ?_, ?_⟩
  · intro hge
    cases henq : (processPage cfg pd st).enqueued
    · rfl
    · have := (processPage_enqueued_imp cfg pd st henq).1
      omega
  · intro fuel
    exact runLoop_saved_le cfg stream fuel initState (by simp [initState])

theorem c2_witness :
    initState.saved ≤ cfgC2.maxProducts ∧
    ((processPage cfgC2 pdC2 initState).state.saved ≤ cfgC2.maxProducts ∧
    (processPage cfgC2 pdC2 initState).state.saved =
      initState.saved + (processPage cfgC2 pdC2 initState).emitted.length ∧
    (processPage cfgC2 pdC2 initState).emitted.length =
      min ((pageProductsToSave cfgC2 pdC2 initState.saved).filter validateProduct).length
        (cfgC2.maxProducts - initState.saved) ∧
    (cfgC2.maxProducts ≤ (processPage cfgC2 pdC2 initState).state.saved →
      (processPage cfgC2 pdC2 initState).enqueued = false) ∧
    (∀ fuel, (runLoop cfgC2 (fun _ => pdC2) fuel initState).saved ≤ cfgC2.maxProducts)) ∧
    (processPage cfgC2 pdC2 initState).state.saved = 5 ∧
    (processPage cfgC2 pdC2 initState).emitted.length = 5 ∧
    (processPage cfgC2 pdC2 initState).enqueued = false :=
  ⟨by decide, c2_theorem cfgC2 (fun _ => pdC2) pdC2 initState (by decide),
    by decide, by decide, by decide⟩

/-- C3: pagination terminates within `maxPages` catalog-page fetches —
every fuel-indexed run point stays at `pageCount ≤ maxPages`, fuel beyond
`maxPages` pages is never used (the run is already finished), and a page
step enqueues a next-page request only when, after the step, both
`pageCount < maxPages` and `saved < maxProducts` hold — regardless of the
stream of pages (in particular of every tier reporting a "has next"
signal). -/
theorem c3_theorem (cfg : Config) (stream : Nat → PageData) (h1 : 1 ≤ cfg.maxPages) :
    (∀ fuel, (runLoop cfg stream fuel initState).pageCount ≤ cfg.maxPages) ∧
    (∀ extra, runLoop cfg stream (cfg.maxPages + extra) initState =
      runLoop cfg stream cfg.maxPages initState) ∧
    (∀ pd st, (processPage cfg pd st).enqueued = true →
      (processPage cfg pd st).state.pageCount < cfg.maxPages ∧
      (processPage cfg pd st).state.saved < cfg.maxProducts) := by
  refine ⟨?_, ?_, ?_⟩
  · intro fuel
    cases fuel with
    | zero => exact Nat.zero_le _
    | succ f =>
      have hle := runLoop_pageCount_le cfg stream f initState
      have h0 : initState.pageCount = 0 := rfl
      rw [h0] at hle
      rwa [Nat.max_eq_right h1] at hle
  · intro extra
    refine runLoop_fuel_stable cfg stream cfg.maxPages extra initState ?_ (by omega)
    simp [initState]
  · intro pd st henq
    have h := processPage_enqueued_imp cfg pd st henq
    exact ⟨h.2, h.1⟩

theorem c3_witness :
    1 ≤ cfgC3.maxPages ∧
    ((∀ fuel, (runLoop cfgC3 (fun _ => pdC3) fuel initState).pageCount ≤ cfgC3.maxPages) ∧
    (∀ extra, runLoop cfgC3 (fun _ => pdC3) (cfgC3.maxPages + extra) initState =
      runLoop cfgC3 (fun _ => pdC3) cfgC3.maxPages initState) ∧
    (∀ pd st, (processPage cfgC3 pd st).enqueued = true →
      (processPage cfgC3 pd st).state.pageCount < cfgC3.maxPages ∧
      (processPage cfgC3 pd st).state.saved < cfgC3.maxProducts)) ∧
    (runLoop cfgC3 (fun _ => pdC3) cfgC3.maxPages initState).pageCount = 3 :=
  ⟨by decide, c3_theorem cfgC3 (fun _ => pdC3) (by decide), by decide⟩

/-- C5: when the detail-page fetch or parse fails (throws), the enricher
returns the input record unchanged in every field; the failure is
non-fatal (the enricher is a total function whose result is emitted in
place of the record). -/
theorem c5_theorem : ∀ p : Product, enrichProductWithDetails none p = p :=
  enrichProductWithDetails_none

/-- C6 (amended): per catalog page, a detail fetch is performed only for
a record with at least one of description/brand/rating/reviewsCount
absent, at most `DETAIL_LIMIT` detail fetches happen, and every record —
in particular every record beyond the cap — is emitted either unchanged
(missing fields left as they are) or as its enrichment; the cap bounds
detail fetches per page, not per run. -/
theorem c6_theorem (cfg : Config) (pd : PageData) (st : CrawlState) :
    (processPage cfg pd st).fetchLog.length ≤ cfg.detailLimit ∧
    (∀ q ∈ (processPage cfg pd st).fetchLog, needsDetail q = true) ∧
    List.Forall₂
      (fun v e => e = v ∨ (needsDetail v = true ∧ e = enrichProductWithDetails (pd.detailOf v) v))
      (pageValidProducts cfg pd st.saved) (processPage cfg pd st).emitted := by
  refine ⟨?_, ?_, ?_⟩
  · rw [processPage_fetchLog, List.length_map]
    have hc := enrichLoop_count cfg pd.detailOf (pageValidProducts cfg pd st.saved) 0
    have hm : max 0 cfg.detailLimit = cfg.detailLimit := Nat.zero_max _
    omega
  · intro q hq
    rw [processPage_fetchLog] at hq
    obtain ⟨t, ht, rfl⟩ := List.mem_map.mp hq
    have htf := List.mem_filter.mp ht
    exact ((enrichLoop_mem cfg pd.detailOf _ 0 t htf.1).2.1 (by simpa using htf.2)).1
  · rw [processPage_emitted]
    exact enrichLoop_forall₂ cfg pd.detailOf _ 0

/-- C6 counterexample: with a configured detail cap of 1, a two-page run
performs 2 detail fetches — the code resets the `detailFetched` counter
on every page, so the cap bounds fetches per page, not per run as
claimed. -/
theorem c6_counterexample :
    cfgC6.detailLimit = 1 ∧
    (runLoop cfgC6 (fun _ => pdC6) cfgC6.maxPages initState).detailFetches = 2 := by
  exact ⟨rfl, by decide⟩

/-! ## Claim theorems: the detail merge (C4) -/

/-- C4 counterexample: a record whose `description` is present (but whose
`rating` is missing, so it is passed to the enricher) has its description
replaced by the detail page's resolved description — a present field is
overwritten by the detail-page value. -/
theorem c4_counterexample :
    strTruthy prodC4.description = true ∧
    needsDetail prodC4 = true ∧
    prodC4.description = some "Original description" ∧
    (enrichProductWithDetails (some detC4) prodC4).description = some "Fresh page description" ∧
    (enrichProductWithDetails (some detC4) prodC4).description ≠ prodC4.description := by
  decide

/-- C4 (amended): for a record passed to the enricher (truthy url,
needing detail), each of description/brand/rating/reviewsCount keeps its
input value exactly when the detail page's resolution chain produces
nothing truthy for that field (in particular a present field is never
overwritten with null); but when the chain does resolve a value, the
resolved value replaces the input value — even when the input field was
already present. -/
theorem c4_theorem (p : Product) (d : DetailResolved)
    (hurl : strTruthy p.url = true) (hneeds : needsDetail p = true) :
    (cleanText (d.description.getD "") = "" → strTruthy p.description = true →
      (enrichProductWithDetails (some d) p).description = p.description) ∧
    (cleanText (d.description.getD "") ≠ "" →
      (enrichProductWithDetails (some d) p).description =
        some (cleanText (d.description.getD ""))) ∧
    (cleanText (d.brand.getD "") = "" → strTruthy p.brand = true →
      (enrichProductWithDetails (some d) p).brand = p.brand) ∧
    (cleanText (d.brand.getD "") ≠ "" →
      (enrichProductWithDetails (some d) p).brand = some (cleanText (d.brand.getD ""))) ∧
    (qTruthy d.rating = false → (enrichProductWithDetails (some d) p).rating = p.rating) ∧
    (qTruthy d.rating = true → (enrichProductWithDetails (some d) p).rating = d.rating) ∧
    (intTruthy d.reviewsCount = false →
      (enrichProductWithDetails (some d) p).reviewsCount = p.reviewsCount) ∧
    (intTruthy d.reviewsCount = true →
      (enrichProductWithDetails (some d) p).reviewsCount = d.reviewsCount) := by
  have hen : enrichProductWithDetails (some d) p = mergeDetails d p := by
    unfold enrichProductWithDetails
    rw [hurl, hneeds]
    rfl
  rw [hen]
  refine ⟨?_, ?_, ?_, ?_, ?_, ?_, ?_, ?_⟩
  · intro hr hp
    simp [mergeDetails, hr, hp]
  · intro hr
    simp [mergeDetails, hr, strTruthy]
  · intro hr hp
    simp [mergeDetails, hr, hp]
  · intro hr
    simp [mergeDetails, hr, strTruthy]
  · intro hq
    simp [mergeDetails, hq]
  · intro hq
    simp [mergeDetails, hq]
  · intro hq
    simp [mergeDetails, hq]
  · intro hq
    simp [mergeDetails, hq]

theorem c4_witness :
    strTruthy prodC4.url = true ∧ needsDetail prodC4 = true ∧
    ((cleanText (detC4.description.getD "") = "" → strTruthy prodC4.description = true →
      (enrichProductWithDetails (some detC4) prodC4).description = prodC4.description) ∧
    (cleanText (detC4.description.getD "") ≠ "" →
      (enrichProductWithDetails (some detC4) prodC4).description =
        some (cleanText (detC4.description.getD ""))) ∧
    (cleanText (detC4.brand.getD "") = "" → strTruthy prodC4.brand = true →
      (enrichProductWithDetails (some detC4) prodC4).brand = prodC4.brand) ∧
    (cleanText (detC4.brand.getD "") ≠ "" →
      (enrichProductWithDetails (some detC4) prodC4).brand =
        some (cleanText (detC4.brand.getD ""))) ∧
    (qTruthy detC4.rating = false →
      (enrichProductWithDetails (some detC4) prodC4).rating = prodC4.rating) ∧
    (qTruthy detC4.rating = true →
      (enrichProductWithDetails (some detC4) prodC4).rating = detC4.rating) ∧
    (intTruthy detC4.reviewsCount = false →
      (enrichProductWithDetails (some detC4) prodC4).reviewsCount = prodC4.reviewsCount) ∧
    (intTruthy detC4.reviewsCount = true →
      (enrichProductWithDetails (some detC4) prodC4).reviewsCount = detC4.reviewsCount)) :=
  ⟨by decide, by decide, c4_theorem prodC4 detC4 (by decide) (by decide)⟩

/-! ## Claim theorems: the endpoint extractor (C10) -/

theorem listStartsWith_append (p : List Char) :
    ∀ a b, listStartsWith p a = true → listStartsWith p (a ++ b) = true := by
  induction p with
  | nil => intro a b _; rfl
  | cons c cs ih =>
    intro a b h
    cases a with
    | nil => cases h
    | cons x xs =>
      rw [List.cons_append]
      have h2 : (decide (c = x) && listStartsWith cs xs) = true := h
      rw [Bool.and_eq_true] at h2
      show (decide (c = x) && listStartsWith cs (xs ++ b)) = true
      rw [Bool.and_eq_true]
      exact ⟨h2.1, ih xs b h2.2⟩

theorem toAbs_noon_product (s : String) :
    toAbs ("https://www.noon.com/uae-en/p/" ++ s) ≠ none := by
  have hdata : ("https://www.noon.com/uae-en/p/" ++ s).data =
      "https://www.noon.com/uae-en/p/".data ++ s.data := String.data_append _ _
  have hpre : listStartsWith "https://".data
      ("https://www.noon.com/uae-en/p/".data ++ s.data) = true :=
    listStartsWith_append _ _ _ (by decide)
  have hdrop : ("https://www.noon.com/uae-en/p/".data ++ s.data).drop 8 =
      'w' :: ("ww.noon.com/uae-en/p/".data ++ s.data) := by
    rw [List.drop_append_of_le_length (by decide)]
    rw [show ("https://www.noon.com/uae-en/p/".data).drop 8 =
      'w' :: "ww.noon.com/uae-en/p/".data from by decide]
    rfl
  have hhost : hostPart (("https://www.noon.com/uae-en/p/".data ++ s.data).drop 8) ≠ [] := by
    rw [hdrop]
    unfold hostPart
    rw [List.takeWhile_cons_of_pos (by decide)]
    exact List.cons_ne_nil _ _
  unfold toAbs
  rw [hdata, hpre, if_pos rfl, if_neg hhost]
  exact Option.some_ne_none _

/-- C10 counterexample: a payload with a truthy sku and the truthy but
malformed url `"https://"` is not dropped, yet the returned record's url
is null — refuting "every record it does return has a non-null url". -/
theorem c10_counterexample :
    strTruthy rawC10.url = true ∧
    extractProductFromAPI (some rawC10) =
      some { title := "", url := none, image := none, brand := none, description := none,
             currentPrice := .null, originalPrice := .null, discount := none, rating := none,
             reviewsCount := none, sku := some "Z9XK12", currency := "AED" } ∧
    (extractProductFromAPI (some rawC10)).map Product.url = some none := by
  decide

/-- C10 (amended): `extractProductFromAPI` returns null exactly for a
nullish object or a falsy sku (even when name and url are present), and
every record it returns carries the payload's truthy sku; the record's
url is non-null whenever the payload provides no url (it is synthesized
from the sku) — but a provided, malformed url can make the record's url
null. -/
theorem c10_theorem (rp : RawAPIProduct) :
    extractProductFromAPI none = none ∧
    (strTruthy rp.sku = false → extractProductFromAPI (some rp) = none) ∧
    (strTruthy rp.sku = true → ∃ rec, extractProductFromAPI (some rp) = some rec ∧
      rec.sku = rp.sku ∧ strTruthy rec.sku = true ∧
      (strTruthy rp.url = false → strTruthy rp.product_url = false → rec.url ≠ none)) := by
  refine ⟨rfl, ?_, ?_⟩
  · intro h
    show (if !strTruthy rp.sku then none else some (apiRecord rp)) = none
    rw [h]
    rfl
  · intro h
    have hsku : strOr rp.sku (strOr rp.product_code rp.id) = rp.sku := by
      unfold strOr
      rw [h]
      rfl
    refine ⟨apiRecord rp, ?_, ?_, ?_, ?_⟩
    · show (if !strTruthy rp.sku then none else some (apiRecord rp)) = some (apiRecord rp)
      rw [h]
      rfl
    · show strOr rp.sku (strOr rp.product_code rp.id) = rp.sku
      exact hsku
    · show strTruthy (strOr rp.sku (strOr rp.product_code rp.id)) = true
      rw [hsku]
      exact h
    · intro hu hpu
      show (if strTruthy (strOr rp.url (strOr rp.product_url
          (if strTruthy (strOr rp.sku (strOr rp.product_code rp.id)) then
            some ("https://www.noon.com/uae-en/p/" ++
              (strOr rp.sku (strOr rp.product_code rp.id)).getD "") else none))) then
          toAbs ((strOr rp.url (strOr rp.product_url
            (if strTruthy (strOr rp.sku (strOr rp.product_code rp.id)) then
              some ("https://www.noon.com/uae-en/p/" ++
                (strOr rp.sku (strOr rp.product_code rp.id)).getD "") else none))).getD "")
          else none) ≠ none
      rw [hsku]
      have hsyn : strOr rp.url (strOr rp.product_url
          (if strTruthy rp.sku then
            some ("https://www.noon.com/uae-en/p/" ++ rp.sku.getD "") else none)) =
          some ("https://www.noon.com/uae-en/p/" ++ rp.sku.getD "") := by
        unfold strOr
        rw [hu, hpu, h]
        rfl
      rw [hsyn]
      have hne : ("https://www.noon.com/uae-en/p/" ++ rp.sku.getD "") ≠ "" := by
        intro heq
        have hd := congrArg String.data heq
        rw [String.data_append] at hd
        have h0 := (List.append_eq_nil.mp hd).1
        simp at h0
      have htr : strTruthy (some ("https://www.noon.com/uae-en/p/" ++ rp.sku.getD "")) = true := by
        show (if ("https://www.noon.com/uae-en/p/" ++ rp.sku.getD "") = "" then false else true) =
          true
        rw [if_neg hne]
      rw [htr, if_pos rfl, Option.getD_some]
      exact toAbs_noon_product _

theorem c10_witness :
    strTruthy rawC10.sku = true ∧
    (extractProductFromAPI none = none ∧
    (strTruthy rawC10.sku = false → extractProductFromAPI (some rawC10) = none) ∧
    (strTruthy rawC10.sku = true → ∃ rec, extractProductFromAPI (some rawC10) = some rec ∧
      rec.sku = rawC10.sku ∧ strTruthy rec.sku = true ∧
      (strTruthy rawC10.url = false → strTruthy rawC10.product_url = false → rec.url ≠ none))) :=
  ⟨by decide, c10_theorem rawC10⟩

/-! ## Token and digit-string lemmas -/

theorem takeWhile_all (p : Char → Bool) :
    ∀ a : List Char, (∀ c ∈ a, p c = true) → a.takeWhile p = a := by
  intro a
  induction a with
  | nil => intro _; rfl
  | cons c cs ih =>
    intro h
    rw [List.takeWhile_cons_of_pos (h c (List.mem_cons_self _ _)),
      ih (fun x hx => h x (List.mem_cons_of_mem _ hx))]

theorem dropWhile_all (p : Char → Bool) :
    ∀ a : List Char, (∀ c ∈ a, p c = true) → a.dropWhile p = [] := by
  intro a
  induction a with
  | nil => intro _; rfl
  | cons c cs ih =>
    intro h
    rw [List.dropWhile_cons_of_pos (h c (List.mem_cons_self _ _))]
    exact ih (fun x hx => h x (List.mem_cons_of_mem _ hx))

theorem takeWhile_all_append (p : Char → Bool) (a : List Char) (x : Char) (r : List Char)
    (ha : ∀ c ∈ a, p c = true) (hx : p x = false) :
    (a ++ x :: r).takeWhile p = a := by
  induction a with
  | nil =>
    rw [List.nil_append]
    exact List.takeWhile_cons_of_neg (by simp [hx])
  | cons c cs ih =>
    rw [List.cons_append, List.takeWhile_cons_of_pos (ha c (List.mem_cons_self _ _)),
      ih (fun y hy => ha y (List.mem_cons_of_mem _ hy))]

theorem dropWhile_all_append (p : Char → Bool) (a : List Char) (x : Char) (r : List Char)
    (ha : ∀ c ∈ a, p c = true) (hx : p x = false) :
    (a ++ x :: r).dropWhile p = x :: r := by
  induction a with
  | nil =>
    rw [List.nil_append]
    exact List.dropWhile_cons_of_neg (by simp [hx])
  | cons c cs ih =>
    rw [List.cons_append, List.dropWhile_cons_of_pos (ha c (List.mem_cons_self _ _))]
    exact ih (fun y hy => ha y (List.mem_cons_of_mem _ hy))

theorem takeWhile_mem_pred (p : Char → Bool) :
    ∀ l : List Char, ∀ c ∈ l.takeWhile p, p c = true ∧ c ∈ l := by
  intro l
  induction l with
  | nil => intro c hc; cases hc
  | cons x xs ih =>
    intro c hc
    by_cases hx : p x = true
    · rw [List.takeWhile_cons_of_pos hx] at hc
      rcases List.mem_cons.mp hc with h | h
      · subst h; exact ⟨hx, List.mem_cons_self _ _⟩
      · obtain ⟨h1, h2⟩ := ih c h
        exact ⟨h1, List.mem_cons_of_mem _ h2⟩
    · rw [List.takeWhile_cons_of_neg (by simpa using hx)] at hc
      cases hc

theorem digit_bounds (c : Char) (h : isDigitChar c = true) : '0' ≤ c ∧ c ≤ '9' := by
  unfold isDigitChar at h
  rw [Bool.and_eq_true] at h
  exact ⟨of_decide_eq_true h.1, of_decide_eq_true h.2⟩

theorem digit_ne_dot (c : Char) (h : isDigitChar c = true) : c ≠ '.' := by
  intro he
  subst he
  exact absurd (digit_bounds _ h).1 (by decide)

theorem digit_ne_comma (c : Char) (h : isDigitChar c = true) : c ≠ ',' := by
  intro he
  subst he
  exact absurd (digit_bounds _ h).1 (by decide)

theorem digit_not_kay (c : Char) (h : isDigitChar c = true) : (c = 'K' || c = 'k') = false := by
  have h1 : c ≠ 'K' := by
    intro he; subst he; exact absurd (digit_bounds _ h).2 (by decide)
  have h2 : c ≠ 'k' := by
    intro he; subst he; exact absurd (digit_bounds _ h).2 (by decide)
  simp [h1, h2]

theorem isNumTokChar_of_digit (c : Char) (h : isDigitChar c = true) : isNumTokChar c = true := by
  unfold isNumTokChar
  rw [h]
  rfl

theorem digit_of_numTok_not_comma (c : Char) (h : isNumTokChar c = true) (hc : c ≠ ',') :
    isDigitChar c = true := by
  unfold isNumTokChar at h
  rw [Bool.or_eq_true] at h
  rcases h with h | h
  · exact h
  · exact absurd (of_decide_eq_true h) hc

theorem filter_digits_id (l : List Char) (h : ∀ c ∈ l, isDigitChar c = true) :
    l.filter (fun c => !(c = ',')) = l := by
  rw [List.filter_eq_self]
  intro c hc
  simp [digit_ne_comma c (h c hc)]

theorem decNorm_isNorm : ∀ (e m : Nat), IsDecNorm (decNorm m e) := by
  intro e
  induction e with
  | zero => intro m; exact Or.inl rfl
  | succ e ih =>
    intro m
    unfold decNorm
    split
    · exact ih _
    · exact Or.inr (by assumption)

theorem decNorm_self (m e : Nat) (h : IsDecNorm ⟨m, e⟩) : decNorm m e = ⟨m, e⟩ := by
  cases e with
  | zero => rfl
  | succ e =>
    unfold decNorm
    rcases h with h | h
    · cases h
    · rw [if_neg h]

theorem decNorm_toQ : ∀ (e m : Nat), (decNorm m e).toQ = (m : ℚ) / 10 ^ e := by
  intro e
  induction e with
  | zero => intro m; rfl
  | succ e ih =>
    intro m
    unfold decNorm
    split
    case isTrue h =>
      rw [ih]
      have hdm : (m / 10) * 10 = m := Nat.div_mul_cancel (Nat.dvd_of_mod_eq_zero h)
      have hd : ((m / 10 : Nat) : ℚ) * 10 = (m : ℚ) := by
        rw [show ((m / 10 : Nat) : ℚ) * 10 = (((m / 10) * 10 : Nat) : ℚ) by push_cast; ring, hdm]
      rw [div_eq_div_iff (by positivity) (by positivity), pow_succ]
      calc ((m / 10 : Nat) : ℚ) * (10 ^ e * 10) = (((m / 10 : Nat) : ℚ) * 10) * 10 ^ e := by
            ring
        _ = (m : ℚ) * 10 ^ e := by rw [hd]
    case isFalse h => rfl

theorem parseFloatD_dot (a b : List Char) (hda : ∀ c ∈ a, isDigitChar c = true)
    (hdb : ∀ c ∈ b, isDigitChar c = true) (hbne : b ≠ []) :
    parseFloatD (a ++ '.' :: b) =
      some (decNorm (digitsVal a * 10 ^ b.length + digitsVal b) b.length) := by
  have h1 : (a ++ '.' :: b).takeWhile isDigitChar = a :=
    takeWhile_all_append _ a '.' b hda (by decide)
  have h2 : (a ++ '.' :: b).dropWhile isDigitChar = '.' :: b :=
    dropWhile_all_append _ a '.' b hda (by decide)
  have h3 : b.takeWhile isDigitChar = b := takeWhile_all _ b hdb
  simp only [parseFloatD, h2, h1, h3, if_true]
  rw [if_neg (by rintro ⟨-, h4⟩; exact hbne h4)]

theorem parseFloatD_digits (a : List Char) (hda : ∀ c ∈ a, isDigitChar c = true) (ha : a ≠ []) :
    parseFloatD a = some (decNorm (digitsVal a) 0) := by
  have h1 : a.takeWhile isDigitChar = a := takeWhile_all _ a hda
  have h2 : a.dropWhile isDigitChar = [] := dropWhile_all _ a hda
  simp only [parseFloatD, h2, h1]
  rw [if_neg ha]

theorem matchTok_eq (l : List Char) :
    (∃ x r, l.dropWhile isNumTokChar = x :: r ∧ x = '.' ∧ r.takeWhile isDigitChar ≠ [] ∧
      matchTok l = l.takeWhile isNumTokChar ++ '.' :: r.takeWhile isDigitChar) ∨
    matchTok l = l.takeWhile isNumTokChar := by
  rcases hdw : l.dropWhile isNumTokChar with _ | ⟨x, r⟩
  · right
    simp only [matchTok, hdw]
  · by_cases hx : x = '.'
    · by_cases hf : r.takeWhile isDigitChar = []
      · right
        simp only [matchTok, hdw, if_pos hx, if_pos hf]
      · left
        exact ⟨x, r, rfl, hx, hf, by simp only [matchTok, hdw, if_pos hx, if_neg hf]⟩
    · right
      simp only [matchTok, hdw, if_neg hx]

theorem firstPriceTok_some : ∀ (l tok : List Char), firstPriceTok l = some tok →
    ∃ c cs, tok = matchTok (c :: cs) ∧ isNumTokChar c = true := by
  intro l
  induction l with
  | nil => intro tok h; cases h
  | cons c cs ih =>
    intro tok h
    unfold firstPriceTok at h
    split at h
    case isTrue hc =>
      injection h with h
      exact ⟨c, cs, h.symm, hc⟩
    case isFalse hc => exact ih tok h

theorem priceTok_shape (l tok : List Char) (h : firstPriceTok l = some tok) :
    (tok ≠ [] ∧ ∀ c ∈ tok, isNumTokChar c = true) ∨
    (∃ a b, (∀ c ∈ a, isNumTokChar c = true) ∧ b ≠ [] ∧
      (∀ c ∈ b, isDigitChar c = true) ∧ tok = a ++ '.' :: b) := by
  obtain ⟨c, cs, htok, hc⟩ := firstPriceTok_some l tok h
  have htw : (c :: cs).takeWhile isNumTokChar = c :: cs.takeWhile isNumTokChar :=
    List.takeWhile_cons_of_pos hc
  have htwne : (c :: cs).takeWhile isNumTokChar ≠ [] := by
    rw [htw]; exact List.cons_ne_nil _ _
  have htwall : ∀ x ∈ (c :: cs).takeWhile isNumTokChar, isNumTokChar x = true :=
    fun x hx => (takeWhile_mem_pred _ _ x hx).1
  rcases matchTok_eq (c :: cs) with ⟨x, r, hdw, hx, hf, heq⟩ | heq
  · right
    refine ⟨(c :: cs).takeWhile isNumTokChar, r.takeWhile isDigitChar, htwall, hf,
      fun y hy => (takeWhile_mem_pred _ _ y hy).1, ?_⟩
    rw [htok, heq]
  · left
    rw [htok, heq]
    exact ⟨htwne, htwall⟩

theorem cleanPrice_eq_of_tok (s : String) (tok : List Char)
    (h : firstPriceTok s.data = some tok) :
    cleanPrice s =
      (match parseFloatD (tok.filter (fun c => !(c = ','))) with
        | none => .nan
        | some d => .num d) := by
  have hne : ¬(s = "") := by
    intro he
    subst he
    cases h
  unfold cleanPrice
  rw [if_neg hne, h]

/-! ## Claim theorems: `cleanPrice` (C7) -/

/-- C7 counterexample: the input `",,"` matches `/[\d,]+(\.\d+)?/` (the
class `[\d,]` includes the comma), the comma-stripped token is empty and
`parseFloat("")` is `NaN` — so `cleanPrice` returns `NaN`, which is
neither `null` nor the numeric value of a token. -/
theorem c7_counterexample :
    firstPriceTok ",,".data = some ",,".data ∧
    cleanPrice ",," = .nan ∧
    PriceResult.nan ≠ PriceResult.null ∧ ∀ d, PriceResult.nan ≠ PriceResult.num d := by
  refine ⟨by decide, by decide, by decide, fun d h => by cases h⟩

/-- C7 (amended): `cleanPrice` is a total function; with no
`/[\d,]+(\.\d+)?/` match it returns null; when the first match contains
at least one digit it returns the (canonical, nonnegative) numeric value
of the comma-stripped token; when the first match consists of commas
only, the comma-stripped token is empty and the result is `NaN`, not
null. -/
theorem c7_theorem (s : String) :
    (firstPriceTok s.data = none → cleanPrice s = .null) ∧
    (∀ tok, firstPriceTok s.data = some tok → tok.any isDigitChar = true →
      ∃ d, cleanPrice s = .num d ∧ IsDecNorm d ∧
        d.toQ = decValueQ (tok.filter (fun c => !(c = ','))) ∧ 0 ≤ d.toQ) ∧
    (∀ tok, firstPriceTok s.data = some tok → tok.any isDigitChar = false →
      cleanPrice s = .nan) := by
  refine ⟨?_, ?_, ?_⟩
  · intro h
    unfold cleanPrice
    split
    · rfl
    · rw [h]
  · intro tok htok hany
    have hcp := cleanPrice_eq_of_tok s tok htok
    rcases priceTok_shape s.data tok htok with ⟨hne, hall⟩ | ⟨a, b, haall, hbne, hball, rfl⟩
    · have hafd : ∀ c ∈ tok.filter (fun c => !(c = ',')), isDigitChar c = true := by
        intro c hc
        have h1 := List.mem_filter.mp hc
        refine digit_of_numTok_not_comma c (hall c h1.1) ?_
        have h2 := h1.2
        simp only [Bool.not_eq_true', decide_eq_false_iff_not] at h2
        exact h2
      have hafne : tok.filter (fun c => !(c = ',')) ≠ [] := by
        rw [List.any_eq_true] at hany
        obtain ⟨c, hcmem, hcd⟩ := hany
        have : c ∈ tok.filter (fun c => !(c = ',')) :=
          List.mem_filter.mpr ⟨hcmem, by simp [digit_ne_comma c hcd]⟩
        exact List.ne_nil_of_mem this
      rw [hcp, parseFloatD_digits _ hafd hafne]
      refine ⟨_, rfl, decNorm_isNorm _ _, ?_, ?_⟩
      · rw [decNorm_toQ]
        unfold decValueQ
        rw [takeWhile_all _ _ (fun c hc => by simp [digit_ne_dot c (hafd c hc)]),
          dropWhile_all _ _ (fun c hc => by simp [digit_ne_dot c (hafd c hc)])]
        simp [digitsVal]
      · rw [decNorm_toQ]
        positivity
    · have hafd : ∀ c ∈ a.filter (fun c => !(c = ',')), isDigitChar c = true := by
        intro c hc
        have h1 := List.mem_filter.mp hc
        refine digit_of_numTok_not_comma c (haall c h1.1) ?_
        have h2 := h1.2
        simp only [Bool.not_eq_true', decide_eq_false_iff_not] at h2
        exact h2
      have hsplit : (a ++ '.' :: b).filter (fun c => !(c = ',')) =
          a.filter (fun c => !(c = ',')) ++ '.' :: b := by
        rw [List.filter_append, List.filter_cons_of_pos (by decide), filter_digits_id b hball]
      rw [hcp, hsplit, parseFloatD_dot _ b hafd hball hbne]
      refine ⟨_, rfl, decNorm_isNorm _ _, ?_, ?_⟩
      · rw [decNorm_toQ]
        unfold decValueQ
        rw [takeWhile_all_append _ _ '.' b (fun c hc => by simp [digit_ne_dot c (hafd c hc)])
            (by decide),
          dropWhile_all_append _ _ '.' b (fun c hc => by simp [digit_ne_dot c (hafd c hc)])
            (by decide)]
        have hp : ((10 : ℚ) ^ b.length) ≠ 0 := by positivity
        push_cast
        field_simp
      · rw [decNorm_toQ]
        positivity
  · intro tok htok hany
    have hcp := cleanPrice_eq_of_tok s tok htok
    rcases priceTok_shape s.data tok htok with ⟨hne, hall⟩ | ⟨a, b, haall, hbne, hball, rfl⟩
    · have hanyf : ∀ c ∈ tok, isDigitChar c = false := by
        intro c hc
        cases hd : isDigitChar c
        · rfl
        · exfalso
          have h2 : tok.any isDigitChar = true := List.any_eq_true.mpr ⟨c, hc, hd⟩
          rw [hany] at h2
          cases h2
      have hafe : tok.filter (fun c => !(c = ',')) = [] := by
        rw [List.filter_eq_nil_iff]
        intro c hc
        have hcomma : c = ',' :=
          of_decide_eq_true (by
            have h1 := hall c hc
            unfold isNumTokChar at h1
            rw [Bool.or_eq_true] at h1
            rcases h1 with h1 | h1
            · rw [hanyf c hc] at h1; cases h1
            · exact h1)
        simp [hcomma]
      rw [hcp, hafe]
      rfl
    · exfalso
      obtain ⟨c, hcmem⟩ := List.exists_mem_of_ne_nil b hbne
      have hcd := hball c hcmem
      have : c ∈ a ++ '.' :: b := List.mem_append_right _ (List.mem_cons_of_mem _ hcmem)
      have h2 : (a ++ '.' :: b).any isDigitChar = true := List.any_eq_true.mpr ⟨c, this, hcd⟩
      rw [hany] at h2
      cases h2

theorem c7_witness :
    firstPriceTok "1,234.50 AED".data = some "1,234.50".data ∧
    "1,234.50".data.any isDigitChar = true ∧
    (∃ d, cleanPrice "1,234.50 AED" = .num d ∧ IsDecNorm d ∧
      d.toQ = decValueQ ("1,234.50".data.filter (fun c => !(c = ','))) ∧ 0 ≤ d.toQ) ∧
    cleanPrice "1,234.50 AED" = .num ⟨12345, 1⟩ :=
  ⟨by decide, by decide,
    ( c7_theorem "1,234.50 AED").2.1 "1,234.50".data (by decide) (by decide), by decide⟩

/-! ## Claim theorems: review-count normalization (C8) -/

theorem removeFirstK_noK : ∀ (l r : List Char),
    (∀ c ∈ l, (c = 'K' || c = 'k') = false) → removeFirstK (l ++ r) = l ++ removeFirstK r := by
  intro l
  induction l with
  | nil => intro r _; rfl
  | cons c cs ih =>
    intro r h
    rw [List.cons_append]
    show (if c = 'K' || c = 'k' then cs ++ r else c :: removeFirstK (cs ++ r)) =
      c :: (cs ++ removeFirstK r)
    rw [h c (List.mem_cons_self _ _)]
    simp only [Bool.false_eq_true, if_false]
    rw [ih r (fun x hx => h x (List.mem_cons_of_mem _ hx))]

theorem decValueQ_dot (a b : List Char) (hda : ∀ c ∈ a, isDigitChar c = true)
    (hdb : ∀ c ∈ b, isDigitChar c = true) :
    decValueQ (a ++ '.' :: b) = (digitsVal a : ℚ) + (digitsVal b : ℚ) / 10 ^ b.length := by
  unfold decValueQ
  rw [takeWhile_all_append _ a '.' b (fun c hc => by simp [digit_ne_dot c (hda c hc)]) (by decide),
    dropWhile_all_append _ a '.' b (fun c hc => by simp [digit_ne_dot c (hda c hc)]) (by decide)]
  rfl

theorem floor_natCast_div (A B : Nat) (hB : 0 < B) :
    ⌊((A : ℚ) / (B : ℚ))⌋ = ((A / B : Nat) : Int) := by
  have h0 : (0 : ℚ) ≤ (A : ℚ) / (B : ℚ) := by positivity
  have h1 : ⌊((A : ℚ) / (B : ℚ))⌋₊ = A / B := by
    rw [Nat.floor_div_nat, Nat.floor_natCast]
  have h2 : ((⌊((A : ℚ) / (B : ℚ))⌋₊ : Nat) : ℤ) = ⌊((A : ℚ) / (B : ℚ))⌋ := by
    rw [← Int.floor_toNat, Int.toNat_of_nonneg (Int.floor_nonneg.mpr h0)]
  rw [← h2, h1]

theorem jsRoundMul1000_floor (d : Dec) :
    ((jsRoundMul1000 d : Nat) : Int) = ⌊d.toQ * 1000 + 1 / 2⌋ := by
  have hq : d.toQ * 1000 + 1 / 2 =
      ((2 * d.mant * 1000 + 10 ^ d.exp : Nat) : ℚ) / ((2 * 10 ^ d.exp : Nat) : ℚ) := by
    unfold Dec.toQ
    have hp : ((10 : ℚ) ^ d.exp) ≠ 0 := by positivity
    push_cast
    field_simp
    ring
  rw [hq, floor_natCast_div _ _ (by positivity)]
  rfl

/-- C8: for every K-suffixed review-count token of the form `"N.FK"`
(digit runs `a`, `b` around the dot), both the listing-markup snippet and
the detail-page snippet normalize it to `Math.round(N.F × 1000)` — the
floor of `N.F × 1000 + 1/2`, with `N.F` the decimal value of the digits. -/
theorem c8_theorem (a b : List Char) (ha : a ≠ []) (hb : b ≠ [])
    (hda : ∀ c ∈ a, isDigitChar c = true) (hdb : ∀ c ∈ b, isDigitChar c = true) :
    ∃ d, parseFloatD (a ++ '.' :: b) = some d ∧
      listingReviewCount (a ++ '.' :: (b ++ ['K'])) = some ((jsRoundMul1000 d : Nat) : Int) ∧
      detailReviewCount (a ++ '.' :: (b ++ ['K'])) =
        listingReviewCount (a ++ '.' :: (b ++ ['K'])) ∧
      ((jsRoundMul1000 d : Nat) : Int) = ⌊decValueQ (a ++ '.' :: b) * 1000 + 1 / 2⌋ := by
  have hrm : removeFirstK (a ++ '.' :: (b ++ ['K'])) = a ++ '.' :: b := by
    rw [removeFirstK_noK a _ (fun c hc => digit_not_kay c (hda c hc))]
    congr 1
    show (if ('.' : Char) = 'K' || ('.' : Char) = 'k' then b ++ ['K']
      else '.' :: removeFirstK (b ++ ['K'])) = '.' :: b
    rw [show (('.' : Char) = 'K' || ('.' : Char) = 'k') = false from by decide]
    simp only [Bool.false_eq_true, if_false]
    rw [removeFirstK_noK b _ (fun c hc => digit_not_kay c (hdb c hc)),
      show removeFirstK ['K'] = [] from by decide, List.append_nil]
  have hany : (a ++ '.' :: (b ++ ['K'])).any (fun c => c = 'K' || c = 'k') = true := by
    refine List.any_eq_true.mpr ⟨'K', ?_, by decide⟩
    exact List.mem_append_right _
      (List.mem_cons_of_mem _ (List.mem_append_right _ (List.mem_cons_self _ _)))
  have hpf := parseFloatD_dot a b hda hdb hb
  refine ⟨_, hpf, ?_, rfl, ?_⟩
  · unfold listingReviewCount
    rw [hany, hrm, hpf]
    rfl
  · have harg : (decNorm (digitsVal a * 10 ^ b.length + digitsVal b) b.length).toQ =
        decValueQ (a ++ '.' :: b) := by
      rw [decNorm_toQ, decValueQ_dot a b hda hdb]
      have hp : ((10 : ℚ) ^ b.length) ≠ 0 := by positivity
      push_cast
      field_simp
    rw [jsRoundMul1000_floor, harg]

theorem c8_witness :
    (['1'] : List Char) ≠ [] ∧ (['2'] : List Char) ≠ [] ∧
    (∀ c ∈ (['1'] : List Char), isDigitChar c = true) ∧
    (∀ c ∈ (['2'] : List Char), isDigitChar c = true) ∧
    (∃ d, parseFloatD (['1'] ++ '.' :: ['2']) = some d ∧
      listingReviewCount (['1'] ++ '.' :: (['2'] ++ ['K'])) =
        some ((jsRoundMul1000 d : Nat) : Int) ∧
      detailReviewCount (['1'] ++ '.' :: (['2'] ++ ['K'])) =
        listingReviewCount (['1'] ++ '.' :: (['2'] ++ ['K'])) ∧
      ((jsRoundMul1000 d : Nat) : Int) = ⌊decValueQ (['1'] ++ '.' :: ['2']) * 1000 + 1 / 2⌋) ∧
    listingReviewCount "1.2K".data = some 1200 :=
  ⟨by decide, by decide, by decide, by decide,
    c8_theorem ['1'] ['2'] (by decide) (by decide) (by decide) (by decide), by decide⟩

/-! ## `cleanText` idempotence -/

theorem bool_eq_false {b : Bool} (h : ¬(b = true)) : b = false := by
  cases b
  · rfl
  · exact absurd rfl h

theorem headOk_nil : HeadOk [] := fun _ h => by cases h

theorem headOk_cons {x : Char} {xs : List Char} (h : isWsChar x = false) : HeadOk (x :: xs) := by
  intro c hc
  injection hc with hc
  subst hc
  exact h

theorem collapseWs_cons (b : Bool) (x : Char) (xs : List Char) :
    collapseWs b (x :: xs) =
      if isWsChar x then (if b then collapseWs true xs else ' ' :: collapseWs true xs)
      else x :: collapseWs false xs := rfl

theorem collapseWs_mem_space : ∀ (b : Bool) (l : List Char), ∀ c ∈ collapseWs b l,
    isWsChar c = true → c = ' ' := by
  intro b l
  induction l generalizing b with
  | nil => intro c hc; cases hc
  | cons x xs ih =>
    intro c hc hw
    unfold collapseWs at hc
    split at hc
    case isTrue hx =>
      split at hc
      · exact ih _ c hc hw
      · rcases List.mem_cons.mp hc with h | h
        · exact h
        · exact ih _ c h hw
    case isFalse hx =>
      rcases List.mem_cons.mp hc with h | h
      · subst h
        exact absurd hw hx
      · exact ih _ c h hw

theorem collapseWs_true_headOk : ∀ l : List Char, HeadOk (collapseWs true l) := by
  intro l
  induction l with
  | nil => exact headOk_nil
  | cons x xs ih =>
    by_cases hx : isWsChar x = true
    · have he : collapseWs true (x :: xs) = collapseWs true xs := by
        rw [collapseWs_cons, hx]
        rfl
      rw [he]
      exact ih
    · have hxf := bool_eq_false hx
      have he : collapseWs true (x :: xs) = x :: collapseWs false xs := by
        rw [collapseWs_cons, hxf]
        rfl
      rw [he]
      exact headOk_cons hxf

theorem collapseWs_chain' : ∀ l : List Char,
    (collapseWs false l).Chain' WsR ∧ (collapseWs true l).Chain' WsR := by
  intro l
  induction l with
  | nil => exact ⟨List.chain'_nil, List.chain'_nil⟩
  | cons x xs ih =>
    by_cases hx : isWsChar x = true
    · have h1 : collapseWs false (x :: xs) = ' ' :: collapseWs true xs := by
        rw [collapseWs_cons, hx]
        rfl
      have h2 : collapseWs true (x :: xs) = collapseWs true xs := by
        rw [collapseWs_cons, hx]
        rfl
      constructor
      · rw [h1, List.chain'_cons']
        exact ⟨fun y hy => Or.inr (collapseWs_true_headOk xs y hy), ih.2⟩
      · rw [h2]
        exact ih.2
    · have hxf := bool_eq_false hx
      have h1 : collapseWs false (x :: xs) = x :: collapseWs false xs := by
        rw [collapseWs_cons, hxf]
        rfl
      have h2 : collapseWs true (x :: xs) = x :: collapseWs false xs := by
        rw [collapseWs_cons, hxf]
        rfl
      constructor
      · rw [h1, List.chain'_cons']
        exact ⟨fun y _ => Or.inl hxf, ih.1⟩
      · rw [h2, List.chain'_cons']
        exact ⟨fun y _ => Or.inl hxf, ih.1⟩

theorem collapseWs_id : ∀ l : List Char, l.Chain' WsR →
    (∀ c ∈ l, isWsChar c = true → c = ' ') →
    collapseWs false l = l ∧ (HeadOk l → collapseWs true l = l) := by
  intro l
  induction l with
  | nil => intro _ _; exact ⟨rfl, fun _ => rfl⟩
  | cons x xs ih =>
    intro hch hall
    have hch2 : xs.Chain' WsR := (List.chain'_cons'.mp hch).2
    have hrel : ∀ y ∈ xs.head?, WsR x y := (List.chain'_cons'.mp hch).1
    have hall2 : ∀ c ∈ xs, isWsChar c = true → c = ' ' :=
      fun c hc => hall c (List.mem_cons_of_mem _ hc)
    obtain ⟨ih1, ih2⟩ := ih hch2 hall2
    by_cases hx : isWsChar x = true
    · have hsp : x = ' ' := hall x (List.mem_cons_self _ _) hx
      have hhead : HeadOk xs := by
        intro y hy
        rcases hrel y hy with h | h
        · rw [hx] at h
          cases h
        · exact h
      constructor
      · have he : collapseWs false (x :: xs) = ' ' :: collapseWs true xs := by
          rw [collapseWs_cons, hx]
          rfl
        rw [he, ih2 hhead, hsp]
      · intro hh
        exfalso
        have h0 := hh x rfl
        rw [hx] at h0
        cases h0
    · have hxf := bool_eq_false hx
      constructor
      · have he : collapseWs false (x :: xs) = x :: collapseWs false xs := by
          rw [collapseWs_cons, hxf]
          rfl
        rw [he, ih1]
      · intro _
        have he : collapseWs true (x :: xs) = x :: collapseWs false xs := by
          rw [collapseWs_cons, hxf]
          rfl
        rw [he, ih1]

theorem dropWhile_headOk (l : List Char) : HeadOk (l.dropWhile isWsChar) := by
  induction l with
  | nil => exact headOk_nil
  | cons x xs ih =>
    by_cases hx : isWsChar x = true
    · rw [List.dropWhile_cons_of_pos hx]
      exact ih
    · rw [List.dropWhile_cons_of_neg hx]
      exact headOk_cons (bool_eq_false hx)

theorem dropWhile_of_headOk (l : List Char) (h : HeadOk l) : l.dropWhile isWsChar = l := by
  cases l with
  | nil => rfl
  | cons x xs =>
    refine List.dropWhile_cons_of_neg ?_
    rw [h x rfl]
    simp

theorem dropWhile_ws_isSuffix (l : List Char) : l.dropWhile isWsChar <:+ l := by
  induction l with
  | nil => exact List.suffix_refl _
  | cons x xs ih =>
    by_cases hx : isWsChar x = true
    · rw [List.dropWhile_cons_of_pos hx]
      exact ih.trans (List.suffix_cons x xs)
    · rw [List.dropWhile_cons_of_neg hx]

theorem headOk_of_isPrefix {p l : List Char} (hp : p <+: l) (h : HeadOk l) : HeadOk p := by
  cases p with
  | nil => exact headOk_nil
  | cons c cs =>
    obtain ⟨t, ht⟩ := hp
    intro y hy
    injection hy with hy
    subst hy
    apply h
    rw [← ht]
    rfl

theorem chain'_dropWhile : ∀ l : List Char, l.Chain' WsR →
    (l.dropWhile isWsChar).Chain' WsR := by
  intro l
  induction l with
  | nil => intro h; exact h
  | cons x xs ih =>
    intro h
    by_cases hx : isWsChar x = true
    · rw [List.dropWhile_cons_of_pos hx]
      exact ih (List.chain'_cons'.mp h).2
    · rw [List.dropWhile_cons_of_neg hx]
      exact h

theorem chain'_reverse_wsR {l : List Char} (h : l.Chain' WsR) : l.reverse.Chain' WsR := by
  rw [List.chain'_reverse]
  exact h.imp (fun a b hab => hab.symm)

theorem mem_trimWs {l : List Char} {c : Char} (hc : c ∈ trimWs l) : c ∈ l := by
  unfold trimWs at hc
  rw [List.mem_reverse] at hc
  have h1 := (dropWhile_ws_isSuffix _).subset hc
  rw [List.mem_reverse] at h1
  exact (dropWhile_ws_isSuffix _).subset h1

theorem chain'_trimWs {l : List Char} (h : l.Chain' WsR) : (trimWs l).Chain' WsR := by
  unfold trimWs
  exact chain'_reverse_wsR (chain'_dropWhile _ (chain'_reverse_wsR (chain'_dropWhile _ h)))

theorem trimWs_headOk (l : List Char) : HeadOk (trimWs l) := by
  have hsuffix : (trimWs l).reverse <:+ (l.dropWhile isWsChar).reverse := by
    unfold trimWs
    rw [List.reverse_reverse]
    exact dropWhile_ws_isSuffix _
  have hpre : trimWs l <+: l.dropWhile isWsChar := List.reverse_suffix.mp hsuffix
  exact headOk_of_isPrefix hpre (dropWhile_headOk l)

theorem trimWs_idem (l : List Char) : trimWs (trimWs l) = trimWs l := by
  have h1 : (trimWs l).dropWhile isWsChar = trimWs l := dropWhile_of_headOk _ (trimWs_headOk l)
  show (((trimWs l).dropWhile isWsChar).reverse.dropWhile isWsChar).reverse = trimWs l
  rw [h1]
  have h2 : (trimWs l).reverse = ((l.dropWhile isWsChar).reverse).dropWhile isWsChar := by
    unfold trimWs
    rw [List.reverse_reverse]
  rw [h2, dropWhile_of_headOk _ (dropWhile_headOk _), ← h2, List.reverse_reverse]

theorem cleanText_idem (s : String) : cleanText (cleanText s) = cleanText s := by
  unfold cleanText
  congr 1
  have hch : (trimWs (collapseWs false s.data)).Chain' WsR :=
    chain'_trimWs (collapseWs_chain' s.data).1
  have hall : ∀ c ∈ trimWs (collapseWs false s.data), isWsChar c = true → c = ' ' :=
    fun c hc hw => collapseWs_mem_space false s.data c (mem_trimWs hc) hw
  have hid : collapseWs false (trimWs (collapseWs false s.data)) =
      trimWs (collapseWs false s.data) := (collapseWs_id _ hch hall).1
  rw [show (String.mk (trimWs (collapseWs false s.data))).data =
    trimWs (collapseWs false s.data) from rfl, hid, trimWs_idem]

/-! ## Digit strings of naturals and the render/parse round trip -/

theorem charDigitVal_digitChar (d : Nat) (h : d < 10) : charDigitVal (digitChar d) = d := by
  interval_cases d <;> decide

theorem isDigitChar_digitChar (d : Nat) (h : d < 10) : isDigitChar (digitChar d) = true := by
  interval_cases d <;> decide

theorem valLSB_natDigitsAux : ∀ (fuel n : Nat), n ≤ fuel → valLSB (natDigitsAux fuel n) = n := by
  intro fuel
  induction fuel with
  | zero =>
    intro n h
    have h0 : n = 0 := by omega
    subst h0
    rfl
  | succ f ih =>
    intro n h
    unfold natDigitsAux
    split
    case isTrue h0 => rw [h0]; rfl
    case isFalse h0 =>
      show charDigitVal (digitChar (n % 10)) + 10 * valLSB (natDigitsAux f (n / 10)) = n
      rw [charDigitVal_digitChar _ (Nat.mod_lt _ (by norm_num)), ih (n / 10) (by omega)]
      omega

theorem digitsVal_reverse (l : List Char) : digitsVal l.reverse = valLSB l := by
  unfold digitsVal valLSB
  rw [List.foldl_reverse]
  congr 1
  funext c a
  omega

theorem digitsVal_natToChars (n : Nat) : digitsVal (natToChars n) = n := by
  unfold natToChars
  split
  case isTrue h => rw [h]; rfl
  case isFalse h => rw [digitsVal_reverse, valLSB_natDigitsAux n n le_rfl]

theorem natDigitsAux_digits : ∀ (fuel n : Nat), ∀ c ∈ natDigitsAux fuel n,
    isDigitChar c = true := by
  intro fuel
  induction fuel with
  | zero => intro n c hc; cases hc
  | succ f ih =>
    intro n c hc
    unfold natDigitsAux at hc
    split at hc
    · cases hc
    · rcases List.mem_cons.mp hc with h | h
      · subst h
        exact isDigitChar_digitChar _ (Nat.mod_lt _ (by norm_num))
      · exact ih _ c h

theorem natToChars_digits (n : Nat) : ∀ c ∈ natToChars n, isDigitChar c = true := by
  unfold natToChars
  split
  · intro c hc
    rw [List.mem_singleton.mp hc]
    decide
  · intro c hc
    rw [List.mem_reverse] at hc
    exact natDigitsAux_digits _ _ c hc

theorem natToChars_ne_nil (n : Nat) : natToChars n ≠ [] := by
  unfold natToChars
  split
  · exact List.cons_ne_nil _ _
  case isFalse h =>
    cases n with
    | zero => exact absurd rfl h
    | succ k =>
      show (natDigitsAux (k + 1) (k + 1)).reverse ≠ []
      unfold natDigitsAux
      rw [if_neg (Nat.succ_ne_zero k)]
      simp

theorem natDigitsAux_length_le : ∀ (fuel n k : Nat), n ≤ fuel → n < 10 ^ k →
    (natDigitsAux fuel n).length ≤ k := by
  intro fuel
  induction fuel with
  | zero =>
    intro n k h _
    have h0 : n = 0 := by omega
    subst h0
    simp [natDigitsAux]
  | succ f ih =>
    intro n k h hk
    unfold natDigitsAux
    split
    · simp
    case isFalse h0 =>
      cases k with
      | zero =>
        exfalso
        rw [pow_zero] at hk
        omega
      | succ k =>
        rw [List.length_cons]
        have h1 : n / 10 < 10 ^ k := by
          rw [Nat.div_lt_iff_lt_mul (by norm_num)]
          calc n < 10 ^ (k + 1) := hk
            _ = 10 ^ k * 10 := by ring
        have h2 : n / 10 ≤ f := by omega
        have h3 := ih (n / 10) k h2 h1
        omega

theorem natToChars_length_le (n k : Nat) (hk : 1 ≤ k) (h : n < 10 ^ k) :
    (natToChars n).length ≤ k := by
  unfold natToChars
  split
  · simpa using hk
  · rw [List.length_reverse]
    exact natDigitsAux_length_le n n k le_rfl h

theorem padDigits_digits (k m : Nat) : ∀ c ∈ padDigits k m, isDigitChar c = true := by
  intro c hc
  unfold padDigits at hc
  rcases List.mem_append.mp hc with h | h
  · rw [List.eq_of_mem_replicate h]
    decide
  · exact natToChars_digits m c h

theorem padDigits_length (k m : Nat) (hk : 1 ≤ k) (h : m < 10 ^ k) :
    (padDigits k m).length = k := by
  unfold padDigits
  rw [List.length_append, List.length_replicate]
  have h1 := natToChars_length_le m k hk h
  omega

theorem foldl_digits_zero_replicate : ∀ z : Nat,
    List.foldl (fun a c => a * 10 + charDigitVal c) 0 (List.replicate z '0') = 0 := by
  intro z
  induction z with
  | zero => rfl
  | succ z ih =>
    rw [List.replicate_succ, List.foldl_cons]
    exact ih

theorem digitsVal_padDigits (k m : Nat) : digitsVal (padDigits k m) = m := by
  unfold digitsVal padDigits
  rw [List.foldl_append, foldl_digits_zero_replicate]
  exact digitsVal_natToChars m

theorem cleanPrice_mk_digits (a : List Char) (ha : a ≠ [])
    (hda : ∀ c ∈ a, isDigitChar c = true) :
    cleanPrice (String.mk a) = .num (decNorm (digitsVal a) 0) := by
  have hne : ¬(String.mk a = "") := by
    intro h
    exact ha (by simpa using congrArg String.data h)
  unfold cleanPrice
  rw [if_neg hne]
  cases a with
  | nil => exact absurd rfl ha
  | cons c cs =>
    have hcn : isNumTokChar c = true :=
      isNumTokChar_of_digit c (hda c (List.mem_cons_self _ _))
    have hft : firstPriceTok (c :: cs) = some (matchTok (c :: cs)) := by
      unfold firstPriceTok
      rw [hcn]
      rfl
    have h1 : (c :: cs).dropWhile isNumTokChar = [] :=
      dropWhile_all _ _ (fun x hx => isNumTokChar_of_digit x (hda x hx))
    have h2 : (c :: cs).takeWhile isNumTokChar = c :: cs :=
      takeWhile_all _ _ (fun x hx => isNumTokChar_of_digit x (hda x hx))
    have hmt : matchTok (c :: cs) = c :: cs := by
      simp only [matchTok, h1, h2]
    rw [show (String.mk (c :: cs)).data = c :: cs from rfl, hft]
    show (match parseFloatD ((matchTok (c :: cs)).filter (fun x => !(x = ','))) with
      | none => PriceResult.nan
      | some d => PriceResult.num d) = PriceResult.num (decNorm (digitsVal (c :: cs)) 0)
    rw [hmt, filter_digits_id _ hda, parseFloatD_digits _ hda (List.cons_ne_nil _ _)]

theorem cleanPrice_mk_dot (a b : List Char) (ha : a ≠ [])
    (hda : ∀ c ∈ a, isDigitChar c = true) (hb : b ≠ [])
    (hdb : ∀ c ∈ b, isDigitChar c = true) :
    cleanPrice (String.mk (a ++ '.' :: b)) =
      .num (decNorm (digitsVal a * 10 ^ b.length + digitsVal b) b.length) := by
  have hne : ¬(String.mk (a ++ '.' :: b) = "") := by
    intro h
    have h0 : a ++ '.' :: b = [] := by simpa using congrArg String.data h
    cases a <;> cases h0
  unfold cleanPrice
  rw [if_neg hne]
  rcases ha2 : a with _ | ⟨c, cs⟩
  · exact absurd ha2 ha
  have hda2 : ∀ x ∈ c :: cs, isDigitChar x = true := ha2 ▸ hda
  have hcn : isNumTokChar c = true :=
    isNumTokChar_of_digit c (hda2 c (List.mem_cons_self _ _))
  have hft : firstPriceTok ((c :: cs) ++ '.' :: b) =
      some (matchTok ((c :: cs) ++ '.' :: b)) := by
    rw [List.cons_append]
    unfold firstPriceTok
    rw [hcn]
    rw [← List.cons_append]
    rfl
  have h1 : ((c :: cs) ++ '.' :: b).takeWhile isNumTokChar = c :: cs :=
    takeWhile_all_append _ _ '.' b (fun x hx => isNumTokChar_of_digit x (hda2 x hx)) (by decide)
  have h2 : ((c :: cs) ++ '.' :: b).dropWhile isNumTokChar = '.' :: b :=
    dropWhile_all_append _ _ '.' b (fun x hx => isNumTokChar_of_digit x (hda2 x hx)) (by decide)
  have h3 : b.takeWhile isDigitChar = b := takeWhile_all _ b hdb
  have hmt : matchTok ((c :: cs) ++ '.' :: b) = (c :: cs) ++ '.' :: b := by
    simp only [matchTok, h1, h2, h3, if_true]
    rw [if_neg hb]
  have hfl : ((c :: cs) ++ '.' :: b).filter (fun x => !(x = ',')) = (c :: cs) ++ '.' :: b := by
    rw [List.filter_eq_self]
    intro x hx
    rcases List.mem_append.mp hx with h | h
    · simp [digit_ne_comma x (hda2 x h)]
    · rcases List.mem_cons.mp h with h | h
      · rw [h]
        decide
      · simp [digit_ne_comma x (hdb x h)]
  rw [show (String.mk ((c :: cs) ++ '.' :: b)).data = (c :: cs) ++ '.' :: b from rfl, hft]
  show (match parseFloatD ((matchTok ((c :: cs) ++ '.' :: b)).filter (fun x => !(x = ','))) with
    | none => PriceResult.nan
    | some d => PriceResult.num d) =
    PriceResult.num (decNorm (digitsVal (c :: cs) * 10 ^ b.length + digitsVal b) b.length)
  rw [hmt, hfl, parseFloatD_dot _ b hda2 hdb hb]

theorem parseFloatD_norm (l : List Char) (d : Dec) (h : parseFloatD l = some d) :
    IsDecNorm d := by
  unfold parseFloatD at h
  split at h
  · split at h
    · split at h
      · cases h
      · injection h with h
        exact h ▸ decNorm_isNorm _ _
    · split at h
      · cases h
      · injection h with h
        exact h ▸ decNorm_isNorm _ _
  · split at h
    · cases h
    · injection h with h
      exact h ▸ decNorm_isNorm _ _

theorem cleanPrice_num_norm (s : String) (d : Dec) (h : cleanPrice s = .num d) : IsDecNorm d := by
  unfold cleanPrice at h
  split at h
  · cases h
  · rcases hft : firstPriceTok s.data with _ | tok
    · rw [hft] at h
      cases h
    · rw [hft] at h
      have h1 : (match parseFloatD (tok.filter (fun c => !(c = ','))) with
        | none => PriceResult.nan
        | some d => PriceResult.num d) = PriceResult.num d := h
      rcases hpf : parseFloatD (tok.filter (fun c => !(c = ','))) with _ | d'
      · rw [hpf] at h1
        cases h1
      · rw [hpf] at h1
        injection h1 with h1
        exact h1 ▸ parseFloatD_norm _ _ hpf

theorem renderDec_roundtrip (d : Dec) (hn : IsDecNorm d) (hr : InPositionalRange d) :
    cleanPrice (renderDec d) = .num d := by
  obtain ⟨m, e⟩ := d
  by_cases hm : m = 0
  · subst hm
    have he : e = 0 := by
      rcases hn with h | h
      · exact h
      · exact absurd (by decide : (0 : Nat) % 10 = 0) h
    subst he
    decide
  · unfold renderDec
    rw [if_neg hm, if_pos hr]
    cases e with
    | zero =>
      have hrp : renderPositional ⟨m, 0⟩ = natToChars m := rfl
      rw [hrp, cleanPrice_mk_digits _ (natToChars_ne_nil m) (natToChars_digits m),
        digitsVal_natToChars]
      rfl
    | succ e =>
      have hE : (0 : Nat) < 10 ^ (e + 1) := by positivity
      have hmod : m % 10 ^ (e + 1) < 10 ^ (e + 1) := Nat.mod_lt _ hE
      have hrp : renderPositional ⟨m, e + 1⟩ =
          natToChars (m / 10 ^ (e + 1)) ++ '.' :: padDigits (e + 1) (m % 10 ^ (e + 1)) := by
        unfold renderPositional
        rw [if_neg (Nat.succ_ne_zero e)]
      have hpne : padDigits (e + 1) (m % 10 ^ (e + 1)) ≠ [] := by
        intro hnil
        have hl := padDigits_length (e + 1) (m % 10 ^ (e + 1)) (by omega) hmod
        rw [hnil] at hl
        simp at hl
      rw [hrp, cleanPrice_mk_dot _ _ (natToChars_ne_nil _) (natToChars_digits _) hpne
        (padDigits_digits _ _)]
      rw [padDigits_length _ _ (by omega) hmod, digitsVal_natToChars, digitsVal_padDigits]
      rw [Nat.div_add_mod' m (10 ^ (e + 1))]
      rw [decNorm_self m (e + 1) hn]

/-! ## Claim theorems: normalization idempotence (C9) -/

/-- C9 counterexample: `cleanPrice` can produce `1e22` (its model
`⟨10^22, 0⟩`), but JS renders every value `≥ 1e21` in exponential
notation, and re-running `cleanPrice` on `"1e+22"` matches only the
leading `"1"` — re-normalization is not a no-op for such values. -/
theorem c9_counterexample :
    cleanPrice "10000000000000000000000" = .num ⟨10 ^ 22, 0⟩ ∧
    renderDec ⟨10 ^ 22, 0⟩ = "1e+22" ∧
    cleanPrice (renderDec ⟨10 ^ 22, 0⟩) = .num ⟨1, 0⟩ ∧
    (⟨1, 0⟩ : Dec) ≠ ⟨10 ^ 22, 0⟩ := by
  refine ⟨by decide, by decide, by decide, by decide⟩

/-- C9 (amended): `cleanText` is idempotent on every string; and every
value produced by `cleanPrice` survives the render/re-parse round trip
provided it lies in JS's positional-notation range (`0` or
`[1e-6, 1e21)`) — outside that range `String(n)` uses exponential
notation, which `cleanPrice` does not re-parse to the same value. -/
theorem c9_theorem :
    (∀ s, cleanText (cleanText s) = cleanText s) ∧
    (∀ s d, cleanPrice s = .num d → InPositionalRange d →
      cleanPrice (renderDec d) = .num d) := by
  refine ⟨cleanText_idem, ?_⟩
  intro s d hcp hr
  exact renderDec_roundtrip d (cleanPrice_num_norm s d hcp) hr

theorem c9_witness :
    cleanPrice "1,234.50 AED" = .num ⟨12345, 1⟩ ∧
    InPositionalRange ⟨12345, 1⟩ ∧
    cleanText (cleanText "  mixed   spacing  ") = cleanText "  mixed   spacing  " ∧
    cleanPrice (renderDec ⟨12345, 1⟩) = .num ⟨12345, 1⟩ :=
  ⟨by decide, by decide, c9_theorem.1 _,
    c9_theorem.2 "1,234.50 AED" ⟨12345, 1⟩ (by decide) (by decide)⟩

end NoonScraper
